import Mathlib

/-!
# Verification of the ShieldAPI MCP server core

Shallow embedding of `src/index.ts`: the target classifier
(`detectTargetType`), the request-URL construction and response handling of
`callShieldApi`, the demo/paid transport selection (`initPaymentFetch`),
the static tool table (`TOOLS` plus the special `full_scan` registration),
and the result formatter (`formatResult`, `JSON.stringify` with indent 2).

JavaScript strings are modelled as Lean `String`/`List Char`; JSON numbers
are modelled as integers.
-/

namespace ShieldApi

/-- Model of `s.includes(c)` on a list of characters: JS `target.includes('@')`. -/
def hasChar : List Char → Char → Bool
  | [], _ => false
  | c :: cs, a => c = a || hasChar cs a

/-- Model of `s.startsWith(pat)`: `leadsWith pat s` is true when the character list
`s` begins with the character list `pat`. -/
def leadsWith : List Char → List Char → Bool
  | [], _ => true
  | _ :: _, [] => false
  | p :: ps, c :: cs => p = c && leadsWith ps cs

/-- One `\d+` atom of the regex `^\d+\.\d+\.\d+\.\d+$`: consumes one or
more ASCII digits (greedily, as the regex engine does; since `.` is not a
digit, greedy matching here is equivalent to the full backtracking
semantics) and returns the remaining input, or fails if the input does not
start with a digit. -/
def chompDigits : List Char → Option (List Char)
  | [] => none
  | c :: cs => if c.isDigit then some (cs.dropWhile Char.isDigit) else none

/-- One `\.` atom: consumes a literal dot. -/
def chompDot : List Char → Option (List Char)
  | [] => none
  | c :: cs => if c = '.' then some cs else none

/-- The anchored regex test `/^\d+\.\d+\.\d+\.\d+$/.test(target)` from
`detectTargetType`: the match succeeds exactly when the whole input is
consumed by the seven atoms. -/
def ipShapeTest (s : String) : Bool :=
  decide (chompDigits s.data >>= chompDot >>= chompDigits >>= chompDot >>=
          chompDigits >>= chompDot >>= chompDigits = some [])

/-- The function `detectTargetType` from `src/index.ts`: the returned one-key record is
modelled as a one-element association list. -/
def detectTargetType (target : String) : List (String × String) :=
  if hasChar target.data '@' then [("email", target)]
  else if ipShapeTest target then [("ip", target)]
  else if leadsWith "http://".data target.data || leadsWith "https://".data target.data then
    [("url", target)]
  else [("domain", target)]

example : detectTargetType "user@example.com" = [("email", "user@example.com")] := by decide
example : detectTargetType "999.999.999.999" = [("ip", "999.999.999.999")] := by decide
example : detectTargetType "8.8.8" = [("domain", "8.8.8")] := by decide
example : detectTargetType "https://evil.com" = [("url", "https://evil.com")] := by decide
example : detectTargetType "example.com" = [("domain", "example.com")] := by decide

/-- The spec's reading of rule 2: the whole string is four dot-separated
groups of one-or-more ASCII digits. -/
def IpShaped (t : String) : Prop :=
  ∃ g1 g2 g3 g4 : List Char,
    g1 ≠ [] ∧ g2 ≠ [] ∧ g3 ≠ [] ∧ g4 ≠ [] ∧
    (∀ c ∈ g1, c.isDigit = true) ∧ (∀ c ∈ g2, c.isDigit = true) ∧
    (∀ c ∈ g3, c.isDigit = true) ∧ (∀ c ∈ g4, c.isDigit = true) ∧
    t.data = g1 ++ '.' :: (g2 ++ '.' :: (g3 ++ '.' :: g4))

theorem hasChar_iff (cs : List Char) (a : Char) : hasChar cs a = true ↔ a ∈ cs := by
  induction cs with
  | nil => simp [hasChar]
  | cons c cs ih =>
    have hstep : hasChar (c :: cs) a = (decide (c = a) || hasChar cs a) := rfl
    rw [hstep, Bool.or_eq_true, decide_eq_true_eq, ih, List.mem_cons]
    constructor
    · rintro (rfl | h)
      · exact Or.inl rfl
      · exact Or.inr h
    · rintro (rfl | h)
      · exact Or.inl rfl
      · exact Or.inr h

theorem optBind_eq_some {α β : Type} {x : Option α} {f : α → Option β} {b : β} :
    x >>= f = some b ↔ ∃ a, x = some a ∧ f a = some b := Option.bind_eq_some

theorem optSome_bind {α β : Type} (a : α) (f : α → Option β) : (some a >>= f) = f a := rfl

theorem leadsWith_iff (p s : List Char) : leadsWith p s = true ↔ ∃ r, s = p ++ r := by
  induction p generalizing s with
  | nil => simp [leadsWith]
  | cons x xs ih =>
    cases s with
    | nil =>
      constructor
      · intro h; exact absurd h (by simp [leadsWith])
      · rintro ⟨r, hr⟩; simp at hr
    | cons c cs =>
      have hstep : leadsWith (x :: xs) (c :: cs) = (decide (x = c) && leadsWith xs cs) := rfl
      rw [hstep, Bool.and_eq_true, decide_eq_true_eq, ih]
      constructor
      · rintro ⟨rfl, r, rfl⟩; exact ⟨r, rfl⟩
      · rintro ⟨r, hr⟩
        injection hr with hx hrest
        exact ⟨hx.symm, r, hrest⟩

theorem dropWhile_append_all {p : Char → Bool} (xs ys : List Char)
    (h : ∀ x ∈ xs, p x = true) : (xs ++ ys).dropWhile p = ys.dropWhile p := by
  induction xs with
  | nil => rfl
  | cons x xs ih =>
    simp only [List.cons_append, List.dropWhile_cons, h x (by simp)]
    exact ih (fun a ha => h a (by simp [ha]))

theorem chompDigits_some {cs rest : List Char} (h : chompDigits cs = some rest) :
    ∃ g, g ≠ [] ∧ (∀ c ∈ g, c.isDigit = true) ∧ cs = g ++ rest := by
  cases cs with
  | nil => simp [chompDigits] at h
  | cons c cs =>
    by_cases hd : c.isDigit
    · simp only [chompDigits, hd, if_pos] at h
      have hrest : rest = cs.dropWhile Char.isDigit := (Option.some.inj h).symm
      subst hrest
      refine ⟨c :: cs.takeWhile Char.isDigit, by simp, ?_, ?_⟩
      · intro x hx
        rcases List.mem_cons.mp hx with rfl | hx
        · exact hd
        · exact List.mem_takeWhile_imp hx
      · simp [List.takeWhile_append_dropWhile]
    · simp [chompDigits, hd] at h

theorem chompDigits_append_dot (g r : List Char) (hne : g ≠ [])
    (hdig : ∀ c ∈ g, c.isDigit = true) :
    chompDigits (g ++ '.' :: r) = some ('.' :: r) := by
  cases g with
  | nil => exact absurd rfl hne
  | cons c cs =>
    simp only [List.cons_append, chompDigits, hdig c (by simp), if_pos]
    rw [dropWhile_append_all cs ('.' :: r) (fun a ha => hdig a (by simp [ha]))]
    simp [List.dropWhile_cons]

theorem chompDigits_all (g : List Char) (hne : g ≠ [])
    (hdig : ∀ c ∈ g, c.isDigit = true) : chompDigits g = some [] := by
  cases g with
  | nil => exact absurd rfl hne
  | cons c cs =>
    simp only [chompDigits, hdig c (by simp), if_pos]
    have hnil : cs.dropWhile Char.isDigit = [] := by
      rw [List.dropWhile_eq_nil_iff]
      intro a ha
      simp [hdig a (by simp [ha])]
    rw [hnil]

theorem chompDot_some {cs rest : List Char} (h : chompDot cs = some rest) :
    cs = '.' :: rest := by
  cases cs with
  | nil => simp [chompDot] at h
  | cons c cs =>
    by_cases hc : c = '.'
    · subst hc
      simp only [chompDot, if_pos rfl] at h
      rw [Option.some.inj h]
    · simp [chompDot, hc] at h

theorem ipShapeTest_iff (t : String) : ipShapeTest t = true ↔ IpShaped t := by
  rw [ipShapeTest, decide_eq_true_iff]
  constructor
  · intro h
    rw [optBind_eq_some] at h
    obtain ⟨r6, h6, hlast⟩ := h
    rw [optBind_eq_some] at h6
    obtain ⟨r5, h5, hdot3⟩ := h6
    rw [optBind_eq_some] at h5
    obtain ⟨r4, h4, hdig3⟩ := h5
    rw [optBind_eq_some] at h4
    obtain ⟨r3, h3, hdot2⟩ := h4
    rw [optBind_eq_some] at h3
    obtain ⟨r2, h2, hdig2⟩ := h3
    rw [optBind_eq_some] at h2
    obtain ⟨r1, h1, hdot1⟩ := h2
    obtain ⟨g1, hg1ne, hg1d, hcs1⟩ := chompDigits_some h1
    obtain ⟨g2, hg2ne, hg2d, hcs2⟩ := chompDigits_some hdig2
    obtain ⟨g3, hg3ne, hg3d, hcs3⟩ := chompDigits_some hdig3
    obtain ⟨g4, hg4ne, hg4d, hcs4⟩ := chompDigits_some hlast
    refine ⟨g1, g2, g3, g4, hg1ne, hg2ne, hg3ne, hg4ne, hg1d, hg2d, hg3d, hg4d, ?_⟩
    rw [hcs1, chompDot_some hdot1, hcs2, chompDot_some hdot2, hcs3, chompDot_some hdot3,
      hcs4]
    simp
  · rintro ⟨g1, g2, g3, g4, h1, h2, h3, h4, d1, d2, d3, d4, ht⟩
    have hdot : ∀ xs : List Char, chompDot ('.' :: xs) = some xs := fun xs => by
      simp [chompDot]
    rw [ht, chompDigits_append_dot _ _ h1 d1, optSome_bind, hdot, optSome_bind,
      chompDigits_append_dot _ _ h2 d2, optSome_bind, hdot, optSome_bind,
      chompDigits_append_dot _ _ h3 d3, optSome_bind, hdot, optSome_bind,
      chompDigits_all g4 h4 d4]

theorem notMem_of_digits (g : List Char) (hg : ∀ c ∈ g, c.isDigit = true) :
    '@' ∉ g := by
  intro hmem
  exact absurd (hg _ hmem) (by decide)

theorem singleton_key_ne {k1 k2 t : String} (hne : k1 ≠ k2) :
    ¬([(k1, t)] = [(k2, t)]) := by
  intro h
  exact hne (congrArg Prod.fst (List.cons.inj h).1)

/-- C1: for every input string, `detectTargetType` returns a one-key mapping
whose value is the original string, chosen by ordered first-match-wins rules:
a string containing `@` is `email`; otherwise a string that is four
dot-separated groups of one-or-more ASCII digits is `ip`; otherwise a string
beginning with `http://` or `https://` is `url`; otherwise `domain`. The
function is total: some key among the four is always produced. -/
theorem claim_C1 (t : String) :
    (∃ k, detectTargetType t = [(k, t)] ∧
      (k = "email" ∨ k = "ip" ∨ k = "url" ∨ k = "domain")) ∧
    (detectTargetType t = [("email", t)] ↔ '@' ∈ t.data) ∧
    (detectTargetType t = [("ip", t)] ↔ ('@' ∉ t.data ∧ IpShaped t)) ∧
    (detectTargetType t = [("url", t)] ↔
      ('@' ∉ t.data ∧ ¬IpShaped t ∧
        ((∃ r, t.data = "http://".data ++ r) ∨ (∃ r, t.data = "https://".data ++ r)))) ∧
    (detectTargetType t = [("domain", t)] ↔
      ('@' ∉ t.data ∧ ¬IpShaped t ∧
        ¬((∃ r, t.data = "http://".data ++ r) ∨ (∃ r, t.data = "https://".data ++ r)))) := by
  have bU : (leadsWith "http://".data t.data || leadsWith "https://".data t.data) = true ↔
      ((∃ r, t.data = "http://".data ++ r) ∨ (∃ r, t.data = "https://".data ++ r)) := by
    rw [Bool.or_eq_true, leadsWith_iff, leadsWith_iff]
  cases hA : hasChar t.data '@' with
  | true =>
    have pA : '@' ∈ t.data := (hasChar_iff _ _).mp hA
    have hd : detectTargetType t = [("email", t)] := by simp [detectTargetType, hA]
    refine ⟨⟨"email", hd, Or.inl rfl⟩, ?_, ?_, ?_, ?_⟩ <;> rw [hd]
    · exact iff_of_true rfl pA
    · exact iff_of_false (singleton_key_ne (by decide)) (fun h => h.1 pA)
    · exact iff_of_false (singleton_key_ne (by decide)) (fun h => h.1 pA)
    · exact iff_of_false (singleton_key_ne (by decide)) (fun h => h.1 pA)
  | false =>
    have pA : '@' ∉ t.data := fun hm => by
      rw [(hasChar_iff _ _).mpr hm] at hA
      exact Bool.noConfusion hA
    cases hI : ipShapeTest t with
    | true =>
      have pI : IpShaped t := (ipShapeTest_iff t).mp hI
      have hd : detectTargetType t = [("ip", t)] := by simp [detectTargetType, hA, hI]
      refine ⟨⟨"ip", hd, Or.inr (Or.inl rfl)⟩, ?_, ?_, ?_, ?_⟩ <;> rw [hd]
      · exact iff_of_false (singleton_key_ne (by decide)) pA
      · exact iff_of_true rfl ⟨pA, pI⟩
      · exact iff_of_false (singleton_key_ne (by decide)) (fun h => h.2.1 pI)
      · exact iff_of_false (singleton_key_ne (by decide)) (fun h => h.2.1 pI)
    | false =>
      have pI : ¬IpShaped t := fun hm => by
        rw [(ipShapeTest_iff t).mpr hm] at hI
        exact Bool.noConfusion hI
      cases hU : leadsWith "http://".data t.data || leadsWith "https://".data t.data with
      | true =>
        have pU := bU.mp hU
        have hd : detectTargetType t = [("url", t)] := by
          simp [detectTargetType, hA, hI, hU]
        refine ⟨⟨"url", hd, Or.inr (Or.inr (Or.inl rfl))⟩, ?_, ?_, ?_, ?_⟩ <;> rw [hd]
        · exact iff_of_false (singleton_key_ne (by decide)) pA
        · exact iff_of_false (singleton_key_ne (by decide)) (fun h => pI h.2)
        · exact iff_of_true rfl ⟨pA, pI, pU⟩
        · exact iff_of_false (singleton_key_ne (by decide)) (fun h => h.2.2 pU)
      | false =>
        have pU : ¬((∃ r, t.data = "http://".data ++ r) ∨
            (∃ r, t.data = "https://".data ++ r)) := fun hm => by
          rw [bU.mpr hm] at hU
          exact Bool.noConfusion hU
        have hd : detectTargetType t = [("domain", t)] := by
          simp [detectTargetType, hA, hI, hU]
        refine ⟨⟨"domain", hd, Or.inr (Or.inr (Or.inr rfl))⟩, ?_, ?_, ?_, ?_⟩ <;> rw [hd]
        · exact iff_of_false (singleton_key_ne (by decide)) pA
        · exact iff_of_false (singleton_key_ne (by decide)) (fun h => pI h.2)
        · exact iff_of_false (singleton_key_ne (by decide)) (fun h => pU h.2.2)
        · exact iff_of_true rfl ⟨pA, pI, pU⟩

/-- C7: every string of the form `d+.d+.d+.d+` classifies as `ip` even when a
group exceeds 255 (no octet-range check); `999.999.999.999` classifies as
`ip`; the partial numeric string `8.8.8` classifies as `domain`. -/
theorem claim_C7 (g1 g2 g3 g4 : List Char)
    (h1 : g1 ≠ []) (h2 : g2 ≠ []) (h3 : g3 ≠ []) (h4 : g4 ≠ [])
    (d1 : ∀ c ∈ g1, c.isDigit = true) (d2 : ∀ c ∈ g2, c.isDigit = true)
    (d3 : ∀ c ∈ g3, c.isDigit = true) (d4 : ∀ c ∈ g4, c.isDigit = true) :
    detectTargetType ⟨g1 ++ '.' :: (g2 ++ '.' :: (g3 ++ '.' :: g4))⟩ =
      [("ip", ⟨g1 ++ '.' :: (g2 ++ '.' :: (g3 ++ '.' :: g4))⟩)] ∧
    detectTargetType "999.999.999.999" = [("ip", "999.999.999.999")] ∧
    detectTargetType "8.8.8" = [("domain", "8.8.8")] := by
  refine ⟨?_, by decide, by decide⟩
  have pA : '@' ∉ g1 ++ '.' :: (g2 ++ '.' :: (g3 ++ '.' :: g4)) := by
    intro hmem
    simp only [List.mem_append, List.mem_cons] at hmem
    rcases hmem with hm | hm | hm | hm | hm | hm | hm
    · exact notMem_of_digits g1 d1 hm
    · exact absurd hm (by decide)
    · exact notMem_of_digits g2 d2 hm
    · exact absurd hm (by decide)
    · exact notMem_of_digits g3 d3 hm
    · exact absurd hm (by decide)
    · exact notMem_of_digits g4 d4 hm
  have hA : hasChar (String.mk (g1 ++ '.' :: (g2 ++ '.' :: (g3 ++ '.' :: g4)))).data '@'
      = false := by
    cases hc : hasChar (String.mk (g1 ++ '.' :: (g2 ++ '.' :: (g3 ++ '.' :: g4)))).data '@'
    · rfl
    · exact absurd ((hasChar_iff _ _).mp hc) pA
  have hI : ipShapeTest ⟨g1 ++ '.' :: (g2 ++ '.' :: (g3 ++ '.' :: g4))⟩ = true :=
    (ipShapeTest_iff _).mpr ⟨g1, g2, g3, g4, h1, h2, h3, h4, d1, d2, d3, d4, rfl⟩
  simp [detectTargetType, hA, hI]

/-- Witness for C7 at the concrete groups of `999.999.999.999`. -/
theorem claim_C7_witness :
    detectTargetType ⟨['9', '9', '9'] ++ '.' :: (['9', '9', '9'] ++ '.' ::
        (['9', '9', '9'] ++ '.' :: ['9', '9', '9']))⟩ =
      [("ip", ⟨['9', '9', '9'] ++ '.' :: (['9', '9', '9'] ++ '.' ::
        (['9', '9', '9'] ++ '.' :: ['9', '9', '9']))⟩)] ∧
    detectTargetType "999.999.999.999" = [("ip", "999.999.999.999")] ∧
    detectTargetType "8.8.8" = [("domain", "8.8.8")] :=
  claim_C7 ['9', '9', '9'] ['9', '9', '9'] ['9', '9', '9'] ['9', '9', '9']
    (by decide) (by decide) (by decide) (by decide)
    (by decide) (by decide) (by decide) (by decide)

/-! ## API Invoker: request-URL construction (`callShieldApi`) -/

/-- Uppercase hexadecimal digit, as percent-encoding prints it. -/
def hexDigit (n : Nat) : Char :=
  if n < 10 then Char.ofNat (48 + n) else Char.ofNat (55 + n)

/-- UTF-8 bytes of one character. -/
def utf8Bytes (c : Char) : List Nat :=
  let n := c.toNat
  if n < 0x80 then [n]
  else if n < 0x800 then [0xC0 + n / 0x40, 0x80 + n % 0x40]
  else if n < 0x10000 then
    [0xE0 + n / 0x1000, 0x80 + (n / 0x40) % 0x40, 0x80 + n % 0x40]
  else
    [0xF0 + n / 0x40000, 0x80 + (n / 0x1000) % 0x40, 0x80 + (n / 0x40) % 0x40,
     0x80 + n % 0x40]

/-- Bytes the `application/x-www-form-urlencoded` serializer (the
`URLSearchParams` percent-encode set) leaves literal: ASCII alphanumerics
and `*`, `-`, `.`, `_`. -/
def formUnreserved (b : Nat) : Bool :=
  (48 ≤ b && b ≤ 57) || (65 ≤ b && b ≤ 90) || (97 ≤ b && b ≤ 122) ||
  b == 0x2A || b == 0x2D || b == 0x2E || b == 0x5F

/-- Form-urlencoded encoding of one byte: literal, `+` for space, or `%XX`. -/
def encodeByte (b : Nat) : List Char :=
  if formUnreserved b then [Char.ofNat b]
  else if b == 0x20 then ['+']
  else ['%', hexDigit (b / 16), hexDigit (b % 16)]

/-- The `URLSearchParams` percent-encoding of a whole string over its UTF-8
bytes. -/
def formEncode (s : String) : String :=
  ⟨(s.data.flatMap utf8Bytes).flatMap encodeByte⟩

/-- Model of `URLSearchParams.set`: replace the first pair with the given name and
drop any others, else append the new pair. -/
def setParam : List (String × String) → String → String → List (String × String)
  | [], k, v => [(k, v)]
  | p :: ps, k, v =>
    if p.1 = k then (k, v) :: ps.filter (fun q => !(q.1 == k))
    else p :: setParam ps k v

/-- The search-parameter list `callShieldApi` builds: each entry of `params`
set in iteration order, then `demo=true` when in demo mode. -/
def queryPairs (params : List (String × String)) (demoMode : Bool) :
    List (String × String) :=
  let ps := params.foldl (fun acc kv => setParam acc kv.1 kv.2) []
  if demoMode then setParam ps "demo" "true" else ps

/-- One serialized `key=value` query component. -/
def encodePair (kv : String × String) : String :=
  formEncode kv.1 ++ "=" ++ formEncode kv.2

/-- The query string as `URL.toString` serializes the search params. -/
def serializeQuery (ps : List (String × String)) : String :=
  String.intercalate "&" (ps.map encodePair)

/-- The URL string `callShieldApi` requests:
`{SHIELDAPI_URL}/api/{endpoint}` plus the serialized query (with `?`) when
any search parameter is present. -/
def buildUrl (base endpoint : String) (params : List (String × String))
    (demoMode : Bool) : String :=
  let ps := queryPairs params demoMode
  base ++ "/api/" ++ endpoint ++
    (if ps.isEmpty then "" else "?" ++ serializeQuery ps)

example :
    buildUrl "https://shield.vainplex.dev" "check-url" [("url", "https://evil.com")]
      false = "https://shield.vainplex.dev/api/check-url?url=https%3A%2F%2Fevil.com" := by
  decide

example :
    buildUrl "https://shield.vainplex.dev" "check-ip" [("ip", "8.8.8.8")] true =
      "https://shield.vainplex.dev/api/check-ip?ip=8.8.8.8&demo=true" := by decide

theorem setParam_not_mem (acc : List (String × String)) (k v : String)
    (h : k ∉ acc.map Prod.fst) : setParam acc k v = acc ++ [(k, v)] := by
  induction acc with
  | nil => rfl
  | cons p ps ih =>
    have hk : ¬(p.1 = k) := fun he => h (by simp [← he])
    have hstep : setParam (p :: ps) k v =
        if p.1 = k then (k, v) :: ps.filter (fun q => !(q.1 == k))
        else p :: setParam ps k v := rfl
    rw [hstep, if_neg hk, List.cons_append]
    exact congrArg (p :: ·) (ih (fun hm => h (List.mem_cons_of_mem _ hm)))

theorem foldl_setParam (params : List (String × String)) :
    ∀ acc : List (String × String), (params.map Prod.fst).Nodup →
    (∀ kv ∈ params, kv.1 ∉ acc.map Prod.fst) →
    params.foldl (fun a kv => setParam a kv.1 kv.2) acc = acc ++ params := by
  induction params with
  | nil => intro acc _ _; simp
  | cons kv ps ih =>
    intro acc hnd hdisj
    have hnd' : (kv.1 :: ps.map Prod.fst).Nodup := by simpa using hnd
    have hhead : kv.1 ∉ ps.map Prod.fst := (List.nodup_cons.mp hnd').1
    have htail : (ps.map Prod.fst).Nodup := (List.nodup_cons.mp hnd').2
    simp only [List.foldl_cons]
    rw [setParam_not_mem acc kv.1 kv.2 (hdisj kv (by simp))]
    rw [ih (acc ++ [(kv.1, kv.2)]) htail ?_]
    · simp
    · intro q hq
      simp only [List.map_append, List.mem_append]
      rintro (hm | hm)
      · exact hdisj q (by simp [hq]) hm
      · have hne : q.1 ≠ kv.1 := by
          intro he
          exact hhead (he ▸ List.mem_map_of_mem Prod.fst hq)
        simp at hm
        exact hne hm

/-- C2: for every base URL, endpoint, parameter map (distinct keys, none
named `demo`, as produced by a JS object literal) and demo flag, the built
URL is the base followed by `/api/{endpoint}` and a query; the query pair
list is exactly the supplied parameters (percent-encoded on serialization)
followed by `demo=true` exactly when demo mode is active; and the concrete
example from the spec evaluates to the expected string. -/
theorem claim_C2 (base endpoint : String) (params : List (String × String))
    (demo : Bool) (h1 : (params.map Prod.fst).Nodup)
    (h2 : "demo" ∉ params.map Prod.fst) :
    (∃ q, buildUrl base endpoint params demo = base ++ "/api/" ++ endpoint ++ q) ∧
    queryPairs params demo = params ++ (if demo then [("demo", "true")] else []) ∧
    (∀ kv ∈ params, kv ∈ queryPairs params demo) ∧
    (("demo", "true") ∈ queryPairs params demo ↔ demo = true) ∧
    buildUrl "https://shield.vainplex.dev" "check-url" [("url", "https://evil.com")]
      false = "https://shield.vainplex.dev/api/check-url?url=https%3A%2F%2Fevil.com" := by
  have hfold : params.foldl (fun a kv => setParam a kv.1 kv.2) [] = params := by
    have := foldl_setParam params [] h1 (by simp)
    simpa using this
  have hq : queryPairs params demo =
      params ++ (if demo then [("demo", "true")] else []) := by
    cases demo with
    | false => simp [queryPairs, hfold]
    | true =>
      simp only [queryPairs, hfold, if_true]
      rw [setParam_not_mem params "demo" "true" h2]
  refine ⟨⟨_, rfl⟩, hq, ?_, ?_, by decide⟩
  · intro kv hkv
    rw [hq]
    exact List.mem_append_left _ hkv
  · rw [hq]
    cases demo with
    | true => simp
    | false =>
      refine iff_of_false ?_ (by simp)
      intro hm
      simp only [Bool.false_eq_true, if_false, List.append_nil] at hm
      exact h2 (List.mem_map_of_mem Prod.fst hm)

/-- Witness for C2 at the spec's concrete example. -/
theorem claim_C2_witness :
    (∃ q, buildUrl "https://shield.vainplex.dev" "check-url"
        [("url", "https://evil.com")] false =
        "https://shield.vainplex.dev" ++ "/api/" ++ "check-url" ++ q) ∧
    queryPairs [("url", "https://evil.com")] false =
      [("url", "https://evil.com")] ++ (if false then [("demo", "true")] else []) ∧
    (∀ kv ∈ [("url", "https://evil.com")],
      kv ∈ queryPairs [("url", "https://evil.com")] false) ∧
    (("demo", "true") ∈ queryPairs [("url", "https://evil.com")] false ↔
      false = true) ∧
    buildUrl "https://shield.vainplex.dev" "check-url" [("url", "https://evil.com")]
      false = "https://shield.vainplex.dev/api/check-url?url=https%3A%2F%2Fevil.com" :=
  claim_C2 "https://shield.vainplex.dev" "check-url" [("url", "https://evil.com")]
    false (by decide) (by decide)

/-! ## API Invoker: response handling -/

/-- An HTTP response as `callShieldApi` observes it: status and body text. -/
structure HttpResponse where
  status : Nat
  body : String
deriving DecidableEq

/-- The `Response.ok` predicate of fetch: the status is in the 2xx range. -/
def HttpResponse.ok (r : HttpResponse) : Bool :=
  200 ≤ r.status && r.status < 300

/-- The message of the error `callShieldApi` throws on a non-2xx response:
endpoint name, status code, and the body truncated by `substring(0, 200)`. -/
def apiErrorMessage (endpoint : String) (status : Nat) (body : String) : String :=
  "ShieldAPI " ++ endpoint ++ " failed (" ++ toString status ++ "): " ++
    ⟨body.data.take 200⟩

/-- The post-fetch logic of `callShieldApi`: on `response.ok` return the
response body (handed as-is to the JSON parse, with no schema validation);
otherwise throw, never producing a success. -/
def handleShieldResponse (endpoint : String) (resp : HttpResponse) :
    Except String String :=
  if resp.ok then Except.ok resp.body
  else Except.error (apiErrorMessage endpoint resp.status resp.body)

example : handleShieldResponse "check-url" ⟨404, "nope"⟩ =
    Except.error "ShieldAPI check-url failed (404): nope" := rfl
example : handleShieldResponse "check-url" ⟨200, "ok-body"⟩ =
    Except.ok "ok-body" := rfl

/-- C3: a 2xx response yields the body as-is; a non-2xx response yields an
error carrying the endpoint, the status and at most the first 200 characters
of the body; no non-2xx response ever becomes a success. -/
theorem claim_C3 (endpoint : String) (resp : HttpResponse) :
    (handleShieldResponse endpoint resp = Except.ok resp.body ↔
      (200 ≤ resp.status ∧ resp.status < 300)) ∧
    (handleShieldResponse endpoint resp =
        Except.error (apiErrorMessage endpoint resp.status resp.body) ↔
      ¬(200 ≤ resp.status ∧ resp.status < 300)) ∧
    (∀ b, handleShieldResponse endpoint resp = Except.ok b →
      (200 ≤ resp.status ∧ resp.status < 300)) ∧
    (String.mk (resp.body.data.take 200)).length ≤ 200 ∧
    (∃ r, resp.body.data = resp.body.data.take 200 ++ r) := by
  have hok : resp.ok = true ↔ (200 ≤ resp.status ∧ resp.status < 300) := by
    simp [HttpResponse.ok]
  by_cases h2 : 200 ≤ resp.status ∧ resp.status < 300
  · have hb : resp.ok = true := hok.mpr h2
    have hd : handleShieldResponse endpoint resp = Except.ok resp.body := by
      simp [handleShieldResponse, hb]
    refine ⟨iff_of_true hd h2, iff_of_false ?_ (fun hn => hn h2), fun b _ => h2, ?_, ?_⟩
    · rw [hd]; exact fun h => Except.noConfusion h
    · show (resp.body.data.take 200).length ≤ 200
      simp [List.length_take]
    · exact ⟨resp.body.data.drop 200, (List.take_append_drop 200 resp.body.data).symm⟩
  · have hb : resp.ok = false := by
      cases hv : resp.ok
      · rfl
      · exact absurd (hok.mp hv) h2
    have hd : handleShieldResponse endpoint resp =
        Except.error (apiErrorMessage endpoint resp.status resp.body) := by
      simp [handleShieldResponse, hb]
    refine ⟨iff_of_false ?_ h2, iff_of_true hd h2, ?_, ?_, ?_⟩
    · rw [hd]; exact fun h => Except.noConfusion h
    · intro b hbad
      rw [hd] at hbad
      exact absurd hbad (fun h => Except.noConfusion h)
    · show (resp.body.data.take 200).length ≤ 200
      simp [List.length_take]
    · exact ⟨resp.body.data.drop 200, (List.take_append_drop 200 resp.body.data).symm⟩

/-- Witness for C3 at a concrete failing and a concrete successful response. -/
theorem claim_C3_witness :
    (handleShieldResponse "check-url" ⟨404, "nope"⟩ =
        Except.ok (HttpResponse.mk 404 "nope").body ↔
      (200 ≤ 404 ∧ 404 < 300)) ∧
    (handleShieldResponse "check-url" ⟨404, "nope"⟩ =
        Except.error (apiErrorMessage "check-url" 404 "nope") ↔
      ¬(200 ≤ 404 ∧ 404 < 300)) ∧
    (∀ b, handleShieldResponse "check-url" ⟨404, "nope"⟩ = Except.ok b →
      (200 ≤ 404 ∧ 404 < 300)) ∧
    (String.mk (("nope" : String).data.take 200)).length ≤ 200 ∧
    (∃ r, ("nope" : String).data = ("nope" : String).data.take 200 ++ r) :=
  claim_C3 "check-url" ⟨404, "nope"⟩

/-! ## Operating mode and the payment-aware transport -/

/-- JS falsiness of the optional `SHIELDAPI_WALLET_PRIVATE_KEY` env string:
`!v` is true exactly when the variable is unset or the empty string. -/
def jsFalsy : Option String → Bool
  | none => true
  | some s => s == ""

/-- Model of `const demoMode = !SHIELDAPI_WALLET_PRIVATE_KEY`. -/
def demoMode (walletKey : Option String) : Bool := jsFalsy walletKey

/-- The two values the module-level `paymentFetch` binding can hold. -/
inductive Transport where
  | plain
  | paymentWrapped
deriving DecidableEq

/-- The function `initPaymentFetch`: in demo mode it returns immediately, leaving
`paymentFetch` untouched; otherwise it installs the payment-wrapped fetch. -/
def initPaymentFetch (dm : Bool) (paymentFetch : Transport) : Transport :=
  if dm then paymentFetch else Transport.paymentWrapped

/-- The transport in effect after startup: `paymentFetch` starts as the
plain `fetch` and `main` runs `initPaymentFetch` once. -/
def startupTransport (dm : Bool) : Transport :=
  initPaymentFetch dm Transport.plain

/-- A request to the remote API: its URL and whether x402 payment
authorization is attached. -/
structure ApiRequest where
  url : String
  hasPaymentAuth : Bool
deriving DecidableEq

/-- Failure of the signing capability. -/
inductive PaymentError where
  | cannotSign
deriving DecidableEq

/-- Modelled from the spec: `wrapFetchWithPayment` of `@x402/fetch`, which
is not part of this repository's sources. Per §4.3 of the spec: issue the
request unmodified; if the response signals payment-required (status 402),
derive authorization via the signing capability — failing with a
`PaymentError` when it cannot sign — and re-issue the request once with
authorization attached; whatever response the retried request receives is
final, with no further retry. The returned list records the requests
issued, in order. -/
def runPayment (canSign : Bool) (server : ApiRequest → HttpResponse)
    (url : String) : Except PaymentError (HttpResponse × List ApiRequest) :=
  let first := server ⟨url, false⟩
  if first.status = 402 then
    if canSign then
      Except.ok (server ⟨url, true⟩, [⟨url, false⟩, ⟨url, true⟩])
    else Except.error PaymentError.cannotSign
  else Except.ok (first, [⟨url, false⟩])

/-- The plain `fetch`: one request, no payment handling of any kind. -/
def runPlain (server : ApiRequest → HttpResponse) (url : String) :
    Except PaymentError (HttpResponse × List ApiRequest) :=
  Except.ok (server ⟨url, false⟩, [⟨url, false⟩])

/-- One logical request through whichever transport is installed. -/
def runTransport : Transport → Bool → (ApiRequest → HttpResponse) →
    String → Except PaymentError (HttpResponse × List ApiRequest)
  | Transport.plain, _, server, url => runPlain server url
  | Transport.paymentWrapped, canSign, server, url => runPayment canSign server url

theorem mem_setParam (ps : List (String × String)) (k v : String) :
    (k, v) ∈ setParam ps k v := by
  induction ps with
  | nil => exact List.mem_singleton.mpr rfl
  | cons p ps ih =>
    have hstep : setParam (p :: ps) k v =
        if p.1 = k then (k, v) :: ps.filter (fun q => !(q.1 == k))
        else p :: setParam ps k v := rfl
    rw [hstep]
    by_cases h : p.1 = k
    · rw [if_pos h]; exact List.mem_cons_self _ _
    · rw [if_neg h]; exact List.mem_cons_of_mem _ ih

/-- C4: in demo mode the payment retry logic is never invoked: startup
leaves the transport as the unmodified plain fetch, every invocation issues
exactly one request with no payment authorization — whatever the server's
response status — and every built query carries the `demo=true` marker. -/
theorem claim_C4 (server : ApiRequest → HttpResponse) (canSign : Bool)
    (url : String) (params : List (String × String)) :
    startupTransport true = Transport.plain ∧
    runTransport (startupTransport true) canSign server url =
      Except.ok (server ⟨url, false⟩, [⟨url, false⟩]) ∧
    ("demo", "true") ∈ queryPairs params true := by
  refine ⟨rfl, rfl, ?_⟩
  show ("demo", "true") ∈ setParam _ "demo" "true"
  exact mem_setParam _ _ _

/-- C5: in paid mode a payment-required (402) first response triggers
exactly one retry of the same URL with authorization attached; a second 402
after the retry is surfaced as the final response — which the invoker turns
into an error, never a success — and is not retried again; when the signing
capability cannot sign, the transport fails with a `PaymentError`. -/
theorem claim_C5 (server : ApiRequest → HttpResponse) (url : String)
    (h402 : (server ⟨url, false⟩).status = 402) :
    runTransport (startupTransport false) true server url =
      Except.ok (server ⟨url, true⟩, [⟨url, false⟩, ⟨url, true⟩]) ∧
    ((server ⟨url, true⟩).status = 402 →
      ∀ endpoint, handleShieldResponse endpoint (server ⟨url, true⟩) =
        Except.error (apiErrorMessage endpoint (server ⟨url, true⟩).status
          (server ⟨url, true⟩).body)) ∧
    runTransport (startupTransport false) false server url =
      Except.error PaymentError.cannotSign := by
  refine ⟨?_, ?_, ?_⟩
  · show runPayment true server url = _
    simp [runPayment, h402]
  · intro hr endpoint
    have hnok : (server ⟨url, true⟩).ok = false := by
      simp [HttpResponse.ok, hr]
    simp [handleShieldResponse, hnok]
  · show runPayment false server url = _
    simp [runPayment, h402]

/-- Witness for C5: a server that answers 402 both without and with
authorization. -/
theorem claim_C5_witness :
    runTransport (startupTransport false) true
        (fun r => if r.hasPaymentAuth then ⟨402, "denied"⟩ else ⟨402, "pay"⟩)
        "https://shield.vainplex.dev/api/check-url" =
      Except.ok
        ((fun r : ApiRequest =>
            if r.hasPaymentAuth then (⟨402, "denied"⟩ : HttpResponse)
            else ⟨402, "pay"⟩) ⟨"https://shield.vainplex.dev/api/check-url", true⟩,
          [⟨"https://shield.vainplex.dev/api/check-url", false⟩,
           ⟨"https://shield.vainplex.dev/api/check-url", true⟩]) ∧
    (((fun r : ApiRequest =>
          if r.hasPaymentAuth then (⟨402, "denied"⟩ : HttpResponse)
          else ⟨402, "pay"⟩) ⟨"https://shield.vainplex.dev/api/check-url", true⟩).status
        = 402 →
      ∀ endpoint, handleShieldResponse endpoint
          ((fun r : ApiRequest =>
            if r.hasPaymentAuth then (⟨402, "denied"⟩ : HttpResponse)
            else ⟨402, "pay"⟩) ⟨"https://shield.vainplex.dev/api/check-url", true⟩) =
        Except.error (apiErrorMessage endpoint 402 "denied")) ∧
    runTransport (startupTransport false) false
        (fun r => if r.hasPaymentAuth then ⟨402, "denied"⟩ else ⟨402, "pay"⟩)
        "https://shield.vainplex.dev/api/check-url" =
      Except.error PaymentError.cannotSign :=
  claim_C5 (fun r => if r.hasPaymentAuth then ⟨402, "denied"⟩ else ⟨402, "pay"⟩)
    "https://shield.vainplex.dev/api/check-url" rfl

/-- C10: an empty `SHIELDAPI_WALLET_PRIVATE_KEY` selects demo mode exactly
as if the variable were absent — mode is decided by falsiness of the
credential string, not its presence — so an empty credential never installs
the payment transport and every request carries `demo=true`. -/
theorem claim_C10 :
    demoMode (some "") = true ∧
    demoMode none = true ∧
    (∀ k, demoMode (some k) = true ↔ k = "") ∧
    startupTransport (demoMode (some "")) = Transport.plain ∧
    (∀ params, ("demo", "true") ∈ queryPairs params (demoMode (some ""))) ∧
    (∀ server canSign url,
      runTransport (startupTransport (demoMode (some ""))) canSign server url =
        Except.ok (server ⟨url, false⟩, [⟨url, false⟩])) := by
  refine ⟨rfl, rfl, ?_, rfl, ?_, fun _ _ _ => rfl⟩
  · intro k
    simp [demoMode, jsFalsy]
  · intro params
    show ("demo", "true") ∈ setParam _ "demo" "true"
    exact mem_setParam _ _ _

/-! ## Tool registry and dispatch -/

/-- One entry of the static `TOOLS` table. -/
structure ToolDef where
  description : String
  param : String
  paramDesc : String
  endpoint : String
deriving DecidableEq

/-- The `TOOLS` table: the six ordinary tools, in source order, keyed by
tool name. -/
def TOOLS : List (String × ToolDef) := [
  ("check_url",
    { description := "Check a URL for malware, phishing, and other threats. Uses URLhaus + heuristic analysis.",
      param := "url",
      paramDesc := "The URL to check (e.g. https://example.com)",
      endpoint := "check-url" }),
  ("check_password",
    { description := "Check if a password hash (SHA-1) has been exposed in known data breaches via HIBP.",
      param := "hash",
      paramDesc := "SHA-1 hash of the password (40 hex chars)",
      endpoint := "check-password" }),
  ("check_password_range",
    { description := "Look up a SHA-1 hash prefix in the HIBP k-Anonymity database.",
      param := "prefix",
      paramDesc := "First 5 characters of the SHA-1 password hash",
      endpoint := "check-password-range" }),
  ("check_domain",
    { description := "Check domain reputation: DNS records, blacklists (Spamhaus, SpamCop, SORBS), SPF/DMARC, SSL.",
      param := "domain",
      paramDesc := "Domain name to check (e.g. example.com)",
      endpoint := "check-domain" }),
  ("check_ip",
    { description := "Check IP reputation: blacklists, Tor exit node detection, reverse DNS.",
      param := "ip",
      paramDesc := "IPv4 address to check (e.g. 8.8.8.8)",
      endpoint := "check-ip" }),
  ("check_email",
    { description := "Check if an email address has been exposed in known data breaches via HIBP.",
      param := "email",
      paramDesc := "Email address to check",
      endpoint := "check-email" })]

/-- The endpoint and parameter set an ordinary registered tool sends for an
argument value: the registration loop passes the single declared argument
straight through to `callShieldApi(def.endpoint, params)`. -/
def ordinaryToolCall (entry : String × ToolDef) (value : String) :
    String × List (String × String) :=
  (entry.2.endpoint, [(entry.2.param, value)])

/-- The endpoint and parameter set the special `full_scan` registration
sends: `callShieldApi('full-scan', detectTargetType(target))`. -/
def fullScanCall (target : String) : String × List (String × String) :=
  ("full-scan", detectTargetType target)

/-- The registry as exposed at startup: (tool name, declared parameter,
endpoint) for the six table entries and the separate `full_scan`
registration. -/
def registeredTools : List (String × String × String) :=
  TOOLS.map (fun e => (e.1, e.2.param, e.2.endpoint)) ++
    [("full_scan", "target", "full-scan")]

theorem detectTargetType_length (t : String) :
    (detectTargetType t).length = 1 := by
  unfold detectTargetType
  split
  · rfl
  · split
    · rfl
    · split
      · rfl
      · rfl

/-- C9: the registry declares exactly the 7 catalog tools, each with the
catalog's parameter name and endpoint path, and every ordinary tool sends
exactly its one declared parameter, mapped 1:1 to the outgoing query
parameter. -/
theorem claim_C9 :
    registeredTools = [
      ("check_url", "url", "check-url"),
      ("check_password", "hash", "check-password"),
      ("check_password_range", "prefix", "check-password-range"),
      ("check_domain", "domain", "check-domain"),
      ("check_ip", "ip", "check-ip"),
      ("check_email", "email", "check-email"),
      ("full_scan", "target", "full-scan")] ∧
    registeredTools.length = 7 ∧
    (∀ e ∈ TOOLS, ∀ v,
      ordinaryToolCall e v = (e.2.endpoint, [(e.2.param, v)]) ∧
      (ordinaryToolCall e v).2 = [(e.2.param, v)] ∧
      (ordinaryToolCall e v).2.length = 1) :=
  ⟨rfl, rfl, fun e _ v => ⟨rfl, rfl, rfl⟩⟩

/-- Witness for C9's quantified part at the first table entry and a sample
value. -/
theorem claim_C9_witness :
    registeredTools.length = 7 ∧
    ordinaryToolCall ("check_url",
      { description := "Check a URL for malware, phishing, and other threats. Uses URLhaus + heuristic analysis.",
        param := "url",
        paramDesc := "The URL to check (e.g. https://example.com)",
        endpoint := "check-url" }) "https://example.com" =
      ("check-url", [("url", "https://example.com")]) :=
  ⟨claim_C9.2.1,
    (claim_C9.2.2 _ (List.mem_cons_self _ _) "https://example.com").1⟩

/-- C8: dispatching `full_scan` with target `user@example.com` calls the
`full-scan` endpoint with exactly the one parameter `email=user@example.com`;
in general the parameter set sent is exactly the Target Classifier's output,
which always has exactly one key. -/
theorem claim_C8 (target : String) :
    fullScanCall "user@example.com" =
      ("full-scan", [("email", "user@example.com")]) ∧
    fullScanCall target = ("full-scan", detectTargetType target) ∧
    (fullScanCall target).2.length = 1 := by
  refine ⟨?_, rfl, detectTargetType_length target⟩
  show ("full-scan", detectTargetType "user@example.com") = _
  rw [show detectTargetType "user@example.com" =
    [("email", "user@example.com")] by decide]

/-! ## Result Formatter: `formatResult` and `JSON.stringify(data, null, 2)`

JSON values are modelled with integer numbers. The serializer below follows
the ECMAScript `JSON.stringify` algorithm with indent 2 exactly: short
escapes and lowercase `\u00xx` for control characters, `[]`/`\x7b\x7d` for
empty containers, and newline-plus-indent layout otherwise. The parser
models `JSON.parse` (restricted to integer numerals), with a recursion
fuel. -/

inductive Json where
  | null
  | bool (b : Bool)
  | num (n : Int)
  | str (s : String)
  | arr (elems : List Json)
  | obj (fields : List (String × Json))

/-- Lowercase hexadecimal digit. -/
def hexLower (n : Nat) : Char :=
  if n < 10 then Char.ofNat (48 + n) else Char.ofNat (87 + n)

/-- The `JSON.stringify` escape of one character inside a string literal. -/
def escChar (c : Char) : List Char :=
  if c = '"' then ['\\', '"']
  else if c = '\\' then ['\\', '\\']
  else if c = '\x08' then ['\\', 'b']
  else if c = '\x09' then ['\\', 't']
  else if c = '\x0a' then ['\\', 'n']
  else if c = '\x0c' then ['\\', 'f']
  else if c = '\x0d' then ['\\', 'r']
  else if c.toNat < 0x20 then
    ['\\', 'u', '0', '0', hexLower (c.toNat / 16), hexLower (c.toNat % 16)]
  else [c]

def escList (cs : List Char) : List Char := cs.flatMap escChar

def digitChar (d : Nat) : Char := Char.ofNat (48 + d)

/-- Decimal digits, with explicit recursion fuel (any fuel above the number
itself is enough, since dividing by ten strictly decreases it). -/
def natCharsAux : Nat → Nat → List Char
  | 0, _ => []
  | fuel + 1, n =>
    if n < 10 then [digitChar n]
    else natCharsAux fuel (n / 10) ++ [digitChar (n % 10)]

/-- Decimal digits of a natural number, most significant first. -/
def natChars (n : Nat) : List Char := natCharsAux (n + 1) n

/-- Decimal notation of an integer. -/
def intChars (n : Int) : List Char :=
  if n < 0 then '-' :: natChars n.natAbs else natChars n.toNat

def indentChars (d : Nat) : List Char := List.replicate (2 * d) ' '

mutual

/-- Serialization `JSON.stringify(v, null, 2)` at nesting depth `d`, as characters. -/
def renderChars : Nat → Json → List Char
  | _, Json.null => ['n', 'u', 'l', 'l']
  | _, Json.bool true => ['t', 'r', 'u', 'e']
  | _, Json.bool false => ['f', 'a', 'l', 's', 'e']
  | _, Json.num n => intChars n
  | _, Json.str s => '"' :: (escList s.data ++ ['"'])
  | _, Json.arr [] => ['[', ']']
  | d, Json.arr (x :: xs) =>
    '[' :: '\n' :: (renderItems (d + 1) (x :: xs) ++ '\n' :: (indentChars d ++ [']']))
  | _, Json.obj [] => ['\x7b', '\x7d']
  | d, Json.obj (p :: ps) =>
    '\x7b' :: '\n' ::
      (renderFields (d + 1) (p :: ps) ++ '\n' :: (indentChars d ++ ['\x7d']))

/-- The comma-newline separated, indented element lines of a nonempty
array. -/
def renderItems : Nat → List Json → List Char
  | _, [] => []
  | d, [x] => indentChars d ++ renderChars d x
  | d, x :: y :: ys =>
    indentChars d ++ (renderChars d x ++ ',' :: '\n' :: renderItems d (y :: ys))

/-- The comma-newline separated, indented `"key": value` lines of a
nonempty object. -/
def renderFields : Nat → List (String × Json) → List Char
  | _, [] => []
  | d, [(k, v)] =>
    indentChars d ++ '"' :: (escList k.data ++ '"' :: ':' :: ' ' :: renderChars d v)
  | d, (k, v) :: q :: qs =>
    indentChars d ++ '"' :: (escList k.data ++ '"' :: ':' :: ' ' ::
      (renderChars d v ++ ',' :: '\n' :: renderFields d (q :: qs)))

end

/-- Serialization `JSON.stringify(v, null, 2)` as a string. -/
def stringify (v : Json) : String := ⟨renderChars 0 v⟩

/-- One content block of the MCP reply envelope. -/
structure ContentBlock where
  type : String
  text : String

/-- The reply envelope `formatResult` returns. -/
structure ToolReply where
  content : List ContentBlock

/-- The function `formatResult` from `src/index.ts`: a single text block holding the
indented JSON serialization. -/
def formatResult (data : Json) : ToolReply :=
  ⟨[⟨"text", stringify data⟩]⟩

example : stringify (Json.num (-12)) = "-12" := rfl
example : stringify (Json.arr []) = "[]" := rfl
example : stringify (Json.str "a\"b\n") = "\"a\\\"b\\n\"" := rfl
example : stringify (Json.obj [("a", Json.arr [Json.num 1]), ("b", Json.str "x")]) =
    "\x7b\n  \"a\": [\n    1\n  ],\n  \"b\": \"x\"\n\x7d" := rfl
example : stringify (Json.str "\x01") = "\"\\u0001\"" := rfl

/-! ### A model of `JSON.parse` (integer numerals) -/

/-- JSON insignificant whitespace. -/
def isWs (c : Char) : Bool := c = ' ' || c = '\n' || c = '\t' || c = '\r'

def skipWs : List Char → List Char
  | [] => []
  | c :: cs => if isWs c then skipWs cs else c :: cs

/-- Consume an expected literal character sequence. -/
def dropLit : List Char → List Char → Option (List Char)
  | [], cs => some cs
  | _ :: _, [] => none
  | l :: ls, c :: cs => if c = l then dropLit ls cs else none

/-- Value of one hexadecimal digit. -/
def hexVal (c : Char) : Option Nat :=
  if '0' ≤ c ∧ c ≤ '9' then some (c.toNat - 48)
  else if 'a' ≤ c ∧ c ≤ 'f' then some (c.toNat - 87)
  else if 'A' ≤ c ∧ c ≤ 'F' then some (c.toNat - 55)
  else none

/-- The character named by a single-character JSON escape. -/
def unescChar (e : Char) : Option Char :=
  if e = '"' then some '"'
  else if e = '\\' then some '\\'
  else if e = '/' then some '/'
  else if e = 'b' then some '\x08'
  else if e = 't' then some '\x09'
  else if e = 'n' then some '\x0a'
  else if e = 'f' then some '\x0c'
  else if e = 'r' then some '\x0d'
  else none

/-- Parse the remainder of a JSON string literal after the opening quote:
characters until an unescaped closing quote, decoding escapes, rejecting
raw control characters. -/
def parseStrChars : Nat → List Char → Option (List Char × List Char)
  | 0, _ => none
  | _ + 1, [] => none
  | fuel + 1, c :: cs =>
    if c = '"' then some ([], cs)
    else if c = '\\' then
      match cs with
      | [] => none
      | e :: cs2 =>
        if e = 'u' then
          match cs2 with
          | h1 :: h2 :: h3 :: h4 :: cs3 =>
            match hexVal h1, hexVal h2, hexVal h3, hexVal h4 with
            | some a, some b, some c2, some d2 =>
              let n := ((a * 16 + b) * 16 + c2) * 16 + d2
              if n.isValidChar then
                (parseStrChars fuel cs3).map (fun pr => (Char.ofNat n :: pr.1, pr.2))
              else none
            | _, _, _, _ => none
          | _ => none
        else
          match unescChar e with
          | some u => (parseStrChars fuel cs2).map (fun pr => (u :: pr.1, pr.2))
          | none => none
    else if c.toNat < 0x20 then none
    else (parseStrChars fuel cs).map (fun pr => (c :: pr.1, pr.2))

/-- Value of a list of decimal digit characters, most significant first. -/
def digitsVal (cs : List Char) : Nat :=
  cs.foldl (fun acc c => 10 * acc + (c.toNat - 48)) 0

/-- Parse a nonempty run of decimal digits into a natural number. -/
def parseNatNum : List Char → Option (Nat × List Char)
  | [] => none
  | c :: cs =>
    if c.isDigit then
      some (digitsVal ((c :: cs).takeWhile Char.isDigit),
        (c :: cs).dropWhile Char.isDigit)
    else none

mutual

/-- Parse one JSON value (with recursion fuel), skipping leading
whitespace. -/
def parseVal : Nat → List Char → Option (Json × List Char)
  | 0, _ => none
  | fuel + 1, cs =>
    match skipWs cs with
    | [] => none
    | c :: rest =>
      if c = 'n' then (dropLit ['u', 'l', 'l'] rest).map (fun r => (Json.null, r))
      else if c = 't' then
        (dropLit ['r', 'u', 'e'] rest).map (fun r => (Json.bool true, r))
      else if c = 'f' then
        (dropLit ['a', 'l', 's', 'e'] rest).map (fun r => (Json.bool false, r))
      else if c = '"' then
        (parseStrChars fuel rest).map (fun pr => (Json.str ⟨pr.1⟩, pr.2))
      else if c = '-' then
        (parseNatNum rest).map (fun pr => (Json.num (-(pr.1 : Int)), pr.2))
      else if c.isDigit then
        (parseNatNum (c :: rest)).map (fun pr => (Json.num (pr.1 : Int), pr.2))
      else if c = '[' then
        let cs1 := skipWs rest
        if cs1.head? = some ']' then some (Json.arr [], cs1.tail)
        else (parseElems fuel cs1).map (fun pr => (Json.arr pr.1, pr.2))
      else if c = '\x7b' then
        let cs1 := skipWs rest
        if cs1.head? = some '\x7d' then some (Json.obj [], cs1.tail)
        else (parseMembers fuel cs1).map (fun pr => (Json.obj pr.1, pr.2))
      else none

/-- Parse the elements of a nonempty array up to the closing bracket. -/
def parseElems : Nat → List Char → Option (List Json × List Char)
  | 0, _ => none
  | fuel + 1, cs =>
    (parseVal fuel cs).bind (fun pr =>
      let r := skipWs pr.2
      if r.head? = some ',' then
        (parseElems fuel r.tail).map (fun qr => (pr.1 :: qr.1, qr.2))
      else if r.head? = some ']' then some ([pr.1], r.tail)
      else none)

/-- Parse the members of a nonempty object up to the closing brace; the
input must start at the first key's opening quote. -/
def parseMembers : Nat → List Char → Option (List (String × Json) × List Char)
  | 0, _ => none
  | fuel + 1, cs =>
    if cs.head? = some '"' then
      (parseStrChars fuel cs.tail).bind (fun kr =>
        let r1 := skipWs kr.2
        if r1.head? = some ':' then
          (parseVal fuel r1.tail).bind (fun vr =>
            let r2 := skipWs vr.2
            if r2.head? = some ',' then
              (parseMembers fuel (skipWs r2.tail)).map
                (fun mr => ((⟨kr.1⟩, vr.1) :: mr.1, mr.2))
            else if r2.head? = some '\x7d' then some ([(⟨kr.1⟩, vr.1)], r2.tail)
            else none)
        else none)
    else none

end

/-- Model of `JSON.parse`: parse one value, allowing trailing whitespace only. -/
def jsonParse (s : String) : Option Json :=
  match parseVal (s.data.length + 1) s.data with
  | some (v, rest) => if skipWs rest = [] then some v else none
  | none => none

example : jsonParse "null" = some Json.null := rfl
example : jsonParse " -41 " = some (Json.num (-41)) := rfl
example : jsonParse (stringify (Json.obj [("a", Json.arr [Json.num 1]), ("b", Json.str "x")])) =
    some (Json.obj [("a", Json.arr [Json.num 1]), ("b", Json.str "x")]) := rfl
example : jsonParse (stringify (Json.str "a\"b\n\x01")) =
    some (Json.str "a\"b\n\x01") := rfl
example : jsonParse (stringify (Json.arr [Json.arr [], Json.obj [], Json.null])) =
    some (Json.arr [Json.arr [], Json.obj [], Json.null]) := rfl

/-! ### Round-trip lemmas -/

/-- A list whose head cannot extend a decimal numeral. -/
def okAfterNum : List Char → Prop
  | [] => True
  | c :: _ => c.isDigit = false

theorem skipWs_cons_not {c : Char} (cs : List Char) (h : isWs c = false) :
    skipWs (c :: cs) = c :: cs := by
  simp [skipWs, h]

theorem skipWs_ws_append {ws : List Char} (cs : List Char)
    (h : ∀ c ∈ ws, isWs c = true) : skipWs (ws ++ cs) = skipWs cs := by
  induction ws with
  | nil => rfl
  | cons w wsr ih =>
    simp only [List.cons_append, skipWs, h w (by simp), if_pos]
    exact ih (fun a ha => h a (by simp [ha]))

theorem isWs_indent (d : Nat) : ∀ c ∈ indentChars d, isWs c = true := by
  intro c hc
  rw [List.eq_of_mem_replicate hc]
  rfl

theorem char_ne_of_isDigit {c : Char} (h : c.isDigit = true) {a : Char}
    (ha : a.isDigit = false) : ¬(c = a) := fun he => by
  rw [he, ha] at h
  exact Bool.noConfusion h

theorem isWs_eq_false_of_isDigit {c : Char} (h : c.isDigit = true) :
    isWs c = false := by
  have h1 : ¬(c = ' ') := char_ne_of_isDigit h (by decide)
  have h2 : ¬(c = '\n') := char_ne_of_isDigit h (by decide)
  have h3 : ¬(c = '\t') := char_ne_of_isDigit h (by decide)
  have h4 : ¬(c = '\r') := char_ne_of_isDigit h (by decide)
  simp [isWs, h1, h2, h3, h4]

theorem digitChar_toNat {d : Nat} (h : d < 10) : (digitChar d).toNat = 48 + d := by
  interval_cases d <;> rfl

theorem digitChar_isDigit {d : Nat} (h : d < 10) : (digitChar d).isDigit = true := by
  interval_cases d <;> rfl

theorem natCharsAux_digits :
    ∀ fuel n, n < fuel → ∀ c ∈ natCharsAux fuel n, c.isDigit = true := by
  intro fuel
  induction fuel with
  | zero => intro n hn; omega
  | succ fuel ih =>
    intro n hn c hc
    by_cases h10 : n < 10
    · have hunf : natCharsAux (fuel + 1) n = [digitChar n] := by
        simp [natCharsAux, h10]
      rw [hunf, List.mem_singleton] at hc
      rw [hc]
      exact digitChar_isDigit h10
    · have hunf : natCharsAux (fuel + 1) n =
          natCharsAux fuel (n / 10) ++ [digitChar (n % 10)] := by
        simp [natCharsAux, h10]
      rw [hunf] at hc
      rcases List.mem_append.mp hc with hc | hc
      · exact ih (n / 10) (by omega) c hc
      · rw [List.mem_singleton.mp hc]
        exact digitChar_isDigit (Nat.mod_lt _ (by omega))

theorem natCharsAux_ne_nil :
    ∀ fuel n, n < fuel → natCharsAux fuel n ≠ [] := by
  intro fuel
  induction fuel with
  | zero => intro n hn; omega
  | succ fuel _ =>
    intro n hn
    by_cases h10 : n < 10
    · simp [natCharsAux, h10]
    · simp [natCharsAux, h10]

theorem digitsVal_append (xs : List Char) (c : Char) :
    digitsVal (xs ++ [c]) = 10 * digitsVal xs + (c.toNat - 48) := by
  simp [digitsVal, List.foldl_append]

theorem digitsVal_natCharsAux :
    ∀ fuel n, n < fuel → digitsVal (natCharsAux fuel n) = n := by
  intro fuel
  induction fuel with
  | zero => intro n hn; omega
  | succ fuel ih =>
    intro n hn
    by_cases h10 : n < 10
    · have hunf : natCharsAux (fuel + 1) n = [digitChar n] := by
        simp [natCharsAux, h10]
      rw [hunf]
      simp [digitsVal, digitChar_toNat h10]
    · have hunf : natCharsAux (fuel + 1) n =
          natCharsAux fuel (n / 10) ++ [digitChar (n % 10)] := by
        simp [natCharsAux, h10]
      rw [hunf, digitsVal_append, ih (n / 10) (by omega),
        digitChar_toNat (Nat.mod_lt _ (by omega))]
      omega

theorem natChars_digits (n : Nat) : ∀ c ∈ natChars n, c.isDigit = true :=
  natCharsAux_digits (n + 1) n (by omega)

theorem natChars_ne_nil (n : Nat) : natChars n ≠ [] :=
  natCharsAux_ne_nil (n + 1) n (by omega)

theorem digitsVal_natChars (n : Nat) : digitsVal (natChars n) = n :=
  digitsVal_natCharsAux (n + 1) n (by omega)

theorem takeWhile_append_all {p : Char → Bool} (xs ys : List Char)
    (h : ∀ x ∈ xs, p x = true) : (xs ++ ys).takeWhile p = xs ++ ys.takeWhile p := by
  induction xs with
  | nil => rfl
  | cons x xs ih =>
    simp only [List.cons_append, List.takeWhile_cons, h x (by simp)]
    simp only [if_pos, List.cons.injEq, true_and]
    exact ih (fun a ha => h a (by simp [ha]))

theorem takeWhile_eq_nil {p : Char → Bool} (ys : List Char)
    (h : okAfterNum ys) (hp : p = Char.isDigit) : ys.takeWhile p = [] := by
  cases ys with
  | nil => rfl
  | cons c cs =>
    have hc : c.isDigit = false := h
    subst hp
    simp [List.takeWhile_cons, hc]

theorem dropWhile_eq_self {p : Char → Bool} (ys : List Char)
    (h : okAfterNum ys) (hp : p = Char.isDigit) : ys.dropWhile p = ys := by
  cases ys with
  | nil => rfl
  | cons c cs =>
    have hc : c.isDigit = false := h
    subst hp
    simp [List.dropWhile_cons, hc]

theorem parseNatNum_spec (n : Nat) (rest : List Char) (hrest : okAfterNum rest) :
    parseNatNum (natChars n ++ rest) = some (n, rest) := by
  obtain ⟨c, t, hct⟩ : ∃ c t, natChars n = c :: t := by
    cases h : natChars n with
    | nil => exact absurd h (natChars_ne_nil n)
    | cons c t => exact ⟨c, t, rfl⟩
  have hdig : ∀ x ∈ natChars n, x.isDigit = true := natChars_digits n
  have hc : c.isDigit = true := hdig c (by rw [hct]; simp)
  rw [hct, List.cons_append]
  simp only [parseNatNum, hc, if_pos]
  rw [← List.cons_append, ← hct]
  rw [takeWhile_append_all _ _ hdig, takeWhile_eq_nil rest hrest rfl,
    dropWhile_append_all _ _ hdig, dropWhile_eq_self rest hrest rfl,
    List.append_nil, digitsVal_natChars]

theorem dropLit_self (lit : List Char) (cs : List Char) :
    dropLit lit (lit ++ cs) = some cs := by
  induction lit with
  | nil => rfl
  | cons l ls ih =>
    simp [dropLit, ih]

theorem hexVal_hexLower {d : Nat} (h : d < 16) : hexVal (hexLower d) = some d := by
  interval_cases d <;> rfl

theorem parseStrChars_plain (f : Nat) (c : Char) (cs : List Char)
    (h1 : ¬(c = '"')) (h2 : ¬(c = '\\')) (h8 : ¬(c.toNat < 0x20)) :
    parseStrChars (f + 1) (c :: cs) =
      (parseStrChars f cs).map (fun pr => (c :: pr.1, pr.2)) := by
  simp [parseStrChars, h1, h2, h8]

theorem parseStrChars_u (f : Nat) (c3 c4 : Char) (a b : Nat) (cs3 : List Char)
    (ha : hexVal c3 = some a) (hb : hexVal c4 = some b)
    (hv : (a * 16 + b).isValidChar) :
    parseStrChars (f + 1) ('\\' :: 'u' :: '0' :: '0' :: c3 :: c4 :: cs3) =
      (parseStrChars f cs3).map (fun pr => (Char.ofNat (a * 16 + b) :: pr.1, pr.2)) := by
  have h0 : hexVal '0' = some 0 := rfl
  simp only [parseStrChars, h0, ha, hb]
  have harith : ((0 * 16 + 0) * 16 + a) * 16 + b = a * 16 + b := by omega
  simp only [harith]
  simp [hv]

theorem parseStrChars_esc :
    ∀ (l rest : List Char) (fuel : Nat), l.length < fuel →
      parseStrChars fuel (escList l ++ '"' :: rest) = some (l, rest) := by
  intro l
  induction l with
  | nil =>
    intro rest fuel hf
    cases fuel with
    | zero => omega
    | succ f => rfl
  | cons c l ih =>
    intro rest fuel hf
    cases fuel with
    | zero => omega
    | succ f =>
    have hlf : l.length < f := by
      simp only [List.length_cons] at hf
      omega
    by_cases h1 : c = '"'
    · subst h1
      show (parseStrChars f (escList l ++ '"' :: rest)).map
        (fun pr => ('"' :: pr.1, pr.2)) = some ('"' :: l, rest)
      rw [ih rest f hlf]
      rfl
    · by_cases h2 : c = '\\'
      · subst h2
        show (parseStrChars f (escList l ++ '"' :: rest)).map
          (fun pr => ('\\' :: pr.1, pr.2)) = some ('\\' :: l, rest)
        rw [ih rest f hlf]
        rfl
      · by_cases h3 : c = '\x08'
        · subst h3
          show (parseStrChars f (escList l ++ '"' :: rest)).map
            (fun pr => ('\x08' :: pr.1, pr.2)) = some ('\x08' :: l, rest)
          rw [ih rest f hlf]
          rfl
        · by_cases h4 : c = '\x09'
          · subst h4
            show (parseStrChars f (escList l ++ '"' :: rest)).map
              (fun pr => ('\x09' :: pr.1, pr.2)) = some ('\x09' :: l, rest)
            rw [ih rest f hlf]
            rfl
          · by_cases h5 : c = '\x0a'
            · subst h5
              show (parseStrChars f (escList l ++ '"' :: rest)).map
                (fun pr => ('\x0a' :: pr.1, pr.2)) = some ('\x0a' :: l, rest)
              rw [ih rest f hlf]
              rfl
            · by_cases h6 : c = '\x0c'
              · subst h6
                show (parseStrChars f (escList l ++ '"' :: rest)).map
                  (fun pr => ('\x0c' :: pr.1, pr.2)) = some ('\x0c' :: l, rest)
                rw [ih rest f hlf]
                rfl
              · by_cases h7 : c = '\x0d'
                · subst h7
                  show (parseStrChars f (escList l ++ '"' :: rest)).map
                    (fun pr => ('\x0d' :: pr.1, pr.2)) = some ('\x0d' :: l, rest)
                  rw [ih rest f hlf]
                  rfl
                · by_cases h8 : c.toNat < 0x20
                  · have he : escChar c = ['\\', 'u', '0', '0',
                        hexLower (c.toNat / 16), hexLower (c.toNat % 16)] := by
                      simp [escChar, h1, h2, h3, h4, h5, h6, h7, h8]
                    have hstep : escList (c :: l) ++ '"' :: rest =
                        '\\' :: 'u' :: '0' :: '0' :: hexLower (c.toNat / 16) ::
                          hexLower (c.toNat % 16) :: (escList l ++ '"' :: rest) := by
                      show (escChar c ++ escList l) ++ '"' :: rest = _
                      rw [he]
                      simp
                    rw [hstep]
                    have hdiv : c.toNat / 16 < 16 := by omega
                    have hmod : c.toNat % 16 < 16 := by omega
                    have hcn : c.toNat / 16 * 16 + c.toNat % 16 = c.toNat := by
                      omega
                    have hval : (c.toNat / 16 * 16 + c.toNat % 16).isValidChar := by
                      rw [hcn]
                      exact Or.inl (by omega)
                    rw [parseStrChars_u f _ _ _ _ _ (hexVal_hexLower hdiv)
                      (hexVal_hexLower hmod) hval]
                    rw [ih rest f hlf]
                    simp [hcn, Char.ofNat_toNat]
                  · have he : escChar c = [c] := by
                      simp [escChar, h1, h2, h3, h4, h5, h6, h7, h8]
                    have hstep : escList (c :: l) ++ '"' :: rest =
                        c :: (escList l ++ '"' :: rest) := by
                      show (escChar c ++ escList l) ++ '"' :: rest = _
                      rw [he]
                      simp
                    rw [hstep, parseStrChars_plain f c _ h1 h2 h8, ih rest f hlf]
                    rfl

mutual

/-- Parser fuel sufficient for one value. -/
def weight : Json → Nat
  | Json.null => 1
  | Json.bool _ => 1
  | Json.num _ => 1
  | Json.str s => 2 + s.length
  | Json.arr [] => 1
  | Json.arr (x :: xs) => 1 + weightElems (x :: xs)
  | Json.obj [] => 1
  | Json.obj (p :: ps) => 1 + weightFields (p :: ps)

/-- Parser fuel sufficient for the elements of an array. -/
def weightElems : List Json → Nat
  | [] => 0
  | x :: xs => 1 + weight x + weightElems xs

/-- Parser fuel sufficient for the members of an object. -/
def weightFields : List (String × Json) → Nat
  | [] => 0
  | (k, v) :: ps => 2 + k.length + weight v + weightFields ps

end

/-- What follows the first element line of an array rendering: separators,
further indented element lines, and finally `close`. -/
def itemsSep (d : Nat) (close : List Char) : List Json → List Char
  | [] => close
  | y :: ys =>
    ',' :: '\n' :: (indentChars d ++ (renderChars d y ++ itemsSep d close ys))

/-- What follows the first member line of an object rendering. -/
def fieldsSep (d : Nat) (close : List Char) : List (String × Json) → List Char
  | [] => close
  | (k, v) :: qs =>
    ',' :: '\n' :: (indentChars d ++ ('"' :: (escList k.data ++
      '"' :: ':' :: ' ' :: (renderChars d v ++ fieldsSep d close qs))))

theorem items_decomp (d : Nat) (close : List Char) :
    ∀ (xs : List Json) (x : Json),
      renderItems d (x :: xs) ++ close =
        indentChars d ++ (renderChars d x ++ itemsSep d close xs) := by
  intro xs
  induction xs with
  | nil =>
    intro x
    simp [renderItems, itemsSep]
  | cons y ys ih =>
    intro x
    have h1 : renderItems d (x :: y :: ys) =
        indentChars d ++ (renderChars d x ++ ',' :: '\n' :: renderItems d (y :: ys)) :=
      rfl
    have h2 : itemsSep d close (y :: ys) =
        ',' :: '\n' :: (indentChars d ++ (renderChars d y ++ itemsSep d close ys)) :=
      rfl
    rw [h1, h2, ← ih y]
    simp

theorem fields_decomp (d : Nat) (close : List Char) :
    ∀ (ps : List (String × Json)) (k : String) (v : Json),
      renderFields d ((k, v) :: ps) ++ close =
        indentChars d ++ ('"' :: (escList k.data ++
          '"' :: ':' :: ' ' :: (renderChars d v ++ fieldsSep d close ps))) := by
  intro ps
  induction ps with
  | nil =>
    intro k v
    simp [renderFields, fieldsSep]
  | cons q qs ih =>
    intro k v
    obtain ⟨k2, v2⟩ := q
    have h1 : renderFields d ((k, v) :: (k2, v2) :: qs) =
        indentChars d ++ '"' :: (escList k.data ++ '"' :: ':' :: ' ' ::
          (renderChars d v ++ ',' :: '\n' :: renderFields d ((k2, v2) :: qs))) := rfl
    have h2 : fieldsSep d close ((k2, v2) :: qs) =
        ',' :: '\n' :: (indentChars d ++ ('"' :: (escList k2.data ++
          '"' :: ':' :: ' ' :: (renderChars d v2 ++ fieldsSep d close qs)))) := rfl
    rw [h1, h2, ← ih k2 v2]
    simp

theorem renderChars_head (d : Nat) (v : Json) :
    ∃ c t, renderChars d v = c :: t ∧ isWs c = false ∧ ¬(c = ']') ∧
      ¬(c = '\x7d') := by
  cases v with
  | null => exact ⟨'n', _, rfl, rfl, by decide, by decide⟩
  | bool b =>
    cases b with
    | false => exact ⟨'f', _, rfl, rfl, by decide, by decide⟩
    | true => exact ⟨'t', _, rfl, rfl, by decide, by decide⟩
  | num n =>
    by_cases hn : n < 0
    · refine ⟨'-', natChars n.natAbs, ?_, rfl, by decide, by decide⟩
      simp [renderChars, intChars, hn]
    · obtain ⟨c, t, hct⟩ : ∃ c t, natChars n.toNat = c :: t := by
        cases h : natChars n.toNat with
        | nil => exact absurd h (natChars_ne_nil _)
        | cons c t => exact ⟨c, t, rfl⟩
      have hcd : c.isDigit = true := natChars_digits n.toNat c (by rw [hct]; simp)
      refine ⟨c, t, ?_, isWs_eq_false_of_isDigit hcd,
        char_ne_of_isDigit hcd (by decide), char_ne_of_isDigit hcd (by decide)⟩
      simp [renderChars, intChars, hn, hct]
  | str s => exact ⟨'"', _, rfl, rfl, by decide, by decide⟩
  | arr xs =>
    cases xs with
    | nil => exact ⟨'[', _, rfl, rfl, by decide, by decide⟩
    | cons x xs => exact ⟨'[', _, rfl, rfl, by decide, by decide⟩
  | obj ps =>
    cases ps with
    | nil => exact ⟨'\x7b', _, rfl, rfl, by decide, by decide⟩
    | cons p ps => exact ⟨'\x7b', _, rfl, rfl, by decide, by decide⟩

theorem parseVal_n (f : Nat) (t : List Char) :
    parseVal (f + 1) ('n' :: t) =
      (dropLit ['u', 'l', 'l'] t).map (fun r => (Json.null, r)) := rfl

theorem parseVal_t (f : Nat) (t : List Char) :
    parseVal (f + 1) ('t' :: t) =
      (dropLit ['r', 'u', 'e'] t).map (fun r => (Json.bool true, r)) := rfl

theorem parseVal_f (f : Nat) (t : List Char) :
    parseVal (f + 1) ('f' :: t) =
      (dropLit ['a', 'l', 's', 'e'] t).map (fun r => (Json.bool false, r)) := rfl

theorem parseVal_quote (f : Nat) (t : List Char) :
    parseVal (f + 1) ('"' :: t) =
      (parseStrChars f t).map (fun pr => (Json.str ⟨pr.1⟩, pr.2)) := rfl

theorem parseVal_minus (f : Nat) (t : List Char) :
    parseVal (f + 1) ('-' :: t) =
      (parseNatNum t).map (fun pr => (Json.num (-(pr.1 : Int)), pr.2)) := rfl

theorem parseVal_lbrack (f : Nat) (t : List Char) :
    parseVal (f + 1) ('[' :: t) =
      (if (skipWs t).head? = some ']' then some (Json.arr [], (skipWs t).tail)
       else (parseElems f (skipWs t)).map (fun pr => (Json.arr pr.1, pr.2))) := rfl

theorem parseVal_lbrace (f : Nat) (t : List Char) :
    parseVal (f + 1) ('\x7b' :: t) =
      (if (skipWs t).head? = some '\x7d' then some (Json.obj [], (skipWs t).tail)
       else (parseMembers f (skipWs t)).map (fun pr => (Json.obj pr.1, pr.2))) := rfl

theorem parseVal_digit (f : Nat) (c : Char) (t : List Char) (hd : c.isDigit = true) :
    parseVal (f + 1) (c :: t) =
      (parseNatNum (c :: t)).map (fun pr => (Json.num (pr.1 : Int), pr.2)) := by
  have h1 : ¬(c = 'n') := char_ne_of_isDigit hd (by decide)
  have h2 : ¬(c = 't') := char_ne_of_isDigit hd (by decide)
  have h3 : ¬(c = 'f') := char_ne_of_isDigit hd (by decide)
  have h4 : ¬(c = '"') := char_ne_of_isDigit hd (by decide)
  have h5 : ¬(c = '-') := char_ne_of_isDigit hd (by decide)
  have hws := skipWs_cons_not t (isWs_eq_false_of_isDigit hd)
  simp [parseVal, hws, h1, h2, h3, h4, h5, hd]

theorem parseVal_ws_append (fuel : Nat) (ws cs : List Char)
    (h : ∀ c ∈ ws, isWs c = true) :
    parseVal fuel (ws ++ cs) = parseVal fuel cs := by
  cases fuel with
  | zero => rfl
  | succ f => simp [parseVal, skipWs_ws_append cs h]

theorem parseElems_succ (f : Nat) (cs : List Char) :
    parseElems (f + 1) cs =
      (parseVal f cs).bind (fun pr =>
        let r := skipWs pr.2
        if r.head? = some ',' then
          (parseElems f r.tail).map (fun qr => (pr.1 :: qr.1, qr.2))
        else if r.head? = some ']' then some ([pr.1], r.tail)
        else none) := rfl

theorem parseMembers_succ (f : Nat) (cs : List Char) :
    parseMembers (f + 1) cs =
      (if cs.head? = some '"' then
        (parseStrChars f cs.tail).bind (fun kr =>
          let r1 := skipWs kr.2
          if r1.head? = some ':' then
            (parseVal f r1.tail).bind (fun vr =>
              let r2 := skipWs vr.2
              if r2.head? = some ',' then
                (parseMembers f (skipWs r2.tail)).map
                  (fun mr => ((⟨kr.1⟩, vr.1) :: mr.1, mr.2))
              else if r2.head? = some '\x7d' then some ([(⟨kr.1⟩, vr.1)], r2.tail)
              else none)
          else none)
      else none) := rfl

theorem parseElems_render :
    ∀ (xs : List Json) (x : Json) (d : Nat) (rest ws : List Char) (fuel : Nat),
      (∀ y ∈ x :: xs, ∀ (d2 : Nat) (ws2 rest2 : List Char) (fuel2 : Nat),
        weight y ≤ fuel2 → okAfterNum rest2 → (∀ c ∈ ws2, isWs c = true) →
        parseVal fuel2 (ws2 ++ (renderChars d2 y ++ rest2)) = some (y, rest2)) →
      weight x + weightElems xs < fuel → okAfterNum rest →
      (∀ c ∈ ws, isWs c = true) →
      parseElems fuel
        (ws ++ (renderChars (d + 1) x ++
          itemsSep (d + 1) ('\n' :: (indentChars d ++ ']' :: rest)) xs)) =
        some (x :: xs, rest) := by
  intro xs
  induction xs with
  | nil =>
    intro x d rest ws fuel IH hfe hrest hws
    cases fuel with
    | zero => omega
    | succ f =>
      have hx : weight x ≤ f := by
        simp [weightElems] at hfe
        omega
      have hsep : itemsSep (d + 1) ('\n' :: (indentChars d ++ ']' :: rest))
          ([] : List Json) = '\n' :: (indentChars d ++ ']' :: rest) := rfl
      rw [hsep]
      have hval := IH x (by simp) (d + 1) ws
        ('\n' :: (indentChars d ++ ']' :: rest)) f hx rfl hws
      rw [parseElems_succ, hval]
      have hr : skipWs ('\n' :: (indentChars d ++ ']' :: rest)) = ']' :: rest := by
        show skipWs (indentChars d ++ ']' :: rest) = ']' :: rest
        rw [skipWs_ws_append _ (isWs_indent d)]
        exact skipWs_cons_not _ rfl
      simp [hr]
  | cons y ys ih =>
    intro x d rest ws fuel IH hfe hrest hws
    cases fuel with
    | zero => omega
    | succ f =>
      have hwe : weightElems (y :: ys) = 1 + weight y + weightElems ys := rfl
      have hx : weight x ≤ f := by
        rw [hwe] at hfe
        omega
      have hsep : itemsSep (d + 1) ('\n' :: (indentChars d ++ ']' :: rest)) (y :: ys) =
          ',' :: '\n' :: (indentChars (d + 1) ++ (renderChars (d + 1) y ++
            itemsSep (d + 1) ('\n' :: (indentChars d ++ ']' :: rest)) ys)) := rfl
      rw [hsep]
      have hval := IH x (by simp) (d + 1) ws
        (',' :: '\n' :: (indentChars (d + 1) ++ (renderChars (d + 1) y ++
          itemsSep (d + 1) ('\n' :: (indentChars d ++ ']' :: rest)) ys))) f hx rfl hws
      rw [parseElems_succ, hval]
      have hrec := ih y d rest ('\n' :: indentChars (d + 1)) f
        (fun z hz => IH z (List.mem_cons_of_mem _ hz))
        (by rw [hwe] at hfe; omega) hrest ?_
      · have htail : ('\n' :: indentChars (d + 1)) ++ (renderChars (d + 1) y ++
            itemsSep (d + 1) ('\n' :: (indentChars d ++ ']' :: rest)) ys) =
            '\n' :: (indentChars (d + 1) ++ (renderChars (d + 1) y ++
              itemsSep (d + 1) ('\n' :: (indentChars d ++ ']' :: rest)) ys)) := rfl
        rw [htail] at hrec
        have hr : skipWs (',' :: '\n' :: (indentChars (d + 1) ++
            (renderChars (d + 1) y ++
              itemsSep (d + 1) ('\n' :: (indentChars d ++ ']' :: rest)) ys))) =
            ',' :: '\n' :: (indentChars (d + 1) ++ (renderChars (d + 1) y ++
              itemsSep (d + 1) ('\n' :: (indentChars d ++ ']' :: rest)) ys)) :=
          skipWs_cons_not _ rfl
        simp [hr, hrec]
      · intro c hc
        rcases List.mem_cons.mp hc with rfl | hc
        · rfl
        · exact isWs_indent _ c hc

theorem parseMembers_render :
    ∀ (ps : List (String × Json)) (k : String) (v : Json) (d : Nat)
      (rest : List Char) (fuel : Nat),
      (∀ q ∈ (k, v) :: ps, ∀ (d2 : Nat) (ws2 rest2 : List Char) (fuel2 : Nat),
        weight (Prod.snd q) ≤ fuel2 → okAfterNum rest2 →
        (∀ c ∈ ws2, isWs c = true) →
        parseVal fuel2 (ws2 ++ (renderChars d2 (Prod.snd q) ++ rest2)) =
          some (Prod.snd q, rest2)) →
      1 + k.length + weight v + weightFields ps < fuel → okAfterNum rest →
      parseMembers fuel
        ('"' :: (escList k.data ++ '"' :: ':' :: ' ' :: (renderChars (d + 1) v ++
          fieldsSep (d + 1) ('\n' :: (indentChars d ++ '\x7d' :: rest)) ps))) =
        some ((k, v) :: ps, rest) := by
  intro ps
  induction ps with
  | nil =>
    intro k v d rest fuel IH hfe hrest
    cases fuel with
    | zero => omega
    | succ f =>
      have h0 : weightFields ([] : List (String × Json)) = 0 := rfl
      rw [h0] at hfe
      have hkl : k.length = k.data.length := rfl
      have hsep : fieldsSep (d + 1) ('\n' :: (indentChars d ++ '\x7d' :: rest))
          ([] : List (String × Json)) =
          '\n' :: (indentChars d ++ '\x7d' :: rest) := rfl
      rw [hsep, parseMembers_succ]
      rw [if_pos (show ('"' :: (escList k.data ++ '"' :: ':' :: ' ' ::
        (renderChars (d + 1) v ++ '\n' :: (indentChars d ++ '\x7d' :: rest)))).head? =
          some '"' from rfl)]
      rw [show ('"' :: (escList k.data ++ '"' :: ':' :: ' ' ::
        (renderChars (d + 1) v ++ '\n' :: (indentChars d ++ '\x7d' :: rest)))).tail =
          escList k.data ++ '"' :: (':' :: ' ' :: (renderChars (d + 1) v ++
            '\n' :: (indentChars d ++ '\x7d' :: rest))) from by simp]
      rw [parseStrChars_esc k.data (':' :: ' ' :: (renderChars (d + 1) v ++
        '\n' :: (indentChars d ++ '\x7d' :: rest))) f (by omega)]
      simp only [Option.some_bind]
      rw [show skipWs (':' :: ' ' :: (renderChars (d + 1) v ++
        '\n' :: (indentChars d ++ '\x7d' :: rest))) =
          ':' :: ' ' :: (renderChars (d + 1) v ++
            '\n' :: (indentChars d ++ '\x7d' :: rest)) from skipWs_cons_not _ rfl]
      rw [if_pos (show (':' :: ' ' :: (renderChars (d + 1) v ++
        '\n' :: (indentChars d ++ '\x7d' :: rest))).head? = some ':' from rfl)]
      rw [show (':' :: ' ' :: (renderChars (d + 1) v ++
        '\n' :: (indentChars d ++ '\x7d' :: rest))).tail =
          ' ' :: (renderChars (d + 1) v ++
            '\n' :: (indentChars d ++ '\x7d' :: rest)) from rfl]
      have hval : parseVal f (' ' :: (renderChars (d + 1) v ++
          '\n' :: (indentChars d ++ '\x7d' :: rest))) =
          some (v, '\n' :: (indentChars d ++ '\x7d' :: rest)) :=
        IH (k, v) (by simp) (d + 1) [' ']
          ('\n' :: (indentChars d ++ '\x7d' :: rest)) f
          (by show weight v ≤ f; omega) rfl
          (by intro c hc; rw [List.mem_singleton.mp hc]; rfl)
      rw [hval]
      simp only [Option.some_bind]
      rw [show skipWs ('\n' :: (indentChars d ++ '\x7d' :: rest)) =
          '\x7d' :: rest from by
        show skipWs (indentChars d ++ '\x7d' :: rest) = '\x7d' :: rest
        rw [skipWs_ws_append _ (isWs_indent d)]
        exact skipWs_cons_not _ rfl]
      rfl
  | cons q qs ih =>
    intro k v d rest fuel IH hfe hrest
    obtain ⟨k2, v2⟩ := q
    cases fuel with
    | zero => omega
    | succ f =>
      have hwf : weightFields ((k2, v2) :: qs) =
          2 + k2.length + weight v2 + weightFields qs := rfl
      rw [hwf] at hfe
      have hkl : k.length = k.data.length := rfl
      have hsep : fieldsSep (d + 1) ('\n' :: (indentChars d ++ '\x7d' :: rest))
          ((k2, v2) :: qs) =
          ',' :: '\n' :: (indentChars (d + 1) ++ ('"' :: (escList k2.data ++
            '"' :: ':' :: ' ' :: (renderChars (d + 1) v2 ++
              fieldsSep (d + 1) ('\n' :: (indentChars d ++ '\x7d' :: rest)) qs)))) :=
        rfl
      rw [hsep, parseMembers_succ]
      rw [if_pos (show ('"' :: (escList k.data ++ '"' :: ':' :: ' ' ::
        (renderChars (d + 1) v ++ ',' :: '\n' :: (indentChars (d + 1) ++
          ('"' :: (escList k2.data ++ '"' :: ':' :: ' ' ::
            (renderChars (d + 1) v2 ++ fieldsSep (d + 1)
              ('\n' :: (indentChars d ++ '\x7d' :: rest)) qs))))))).head? =
          some '"' from rfl)]
      rw [show ('"' :: (escList k.data ++ '"' :: ':' :: ' ' ::
        (renderChars (d + 1) v ++ ',' :: '\n' :: (indentChars (d + 1) ++
          ('"' :: (escList k2.data ++ '"' :: ':' :: ' ' ::
            (renderChars (d + 1) v2 ++ fieldsSep (d + 1)
              ('\n' :: (indentChars d ++ '\x7d' :: rest)) qs))))))).tail =
          escList k.data ++ '"' :: (':' :: ' ' :: (renderChars (d + 1) v ++
            ',' :: '\n' :: (indentChars (d + 1) ++ ('"' :: (escList k2.data ++
              '"' :: ':' :: ' ' :: (renderChars (d + 1) v2 ++ fieldsSep (d + 1)
                ('\n' :: (indentChars d ++ '\x7d' :: rest)) qs)))))) from by simp]
      rw [parseStrChars_esc k.data (':' :: ' ' :: (renderChars (d + 1) v ++
        ',' :: '\n' :: (indentChars (d + 1) ++ ('"' :: (escList k2.data ++
          '"' :: ':' :: ' ' :: (renderChars (d + 1) v2 ++ fieldsSep (d + 1)
            ('\n' :: (indentChars d ++ '\x7d' :: rest)) qs)))))) f (by omega)]
      simp only [Option.some_bind]
      rw [show skipWs (':' :: ' ' :: (renderChars (d + 1) v ++
        ',' :: '\n' :: (indentChars (d + 1) ++ ('"' :: (escList k2.data ++
          '"' :: ':' :: ' ' :: (renderChars (d + 1) v2 ++ fieldsSep (d + 1)
            ('\n' :: (indentChars d ++ '\x7d' :: rest)) qs)))))) =
          ':' :: ' ' :: (renderChars (d + 1) v ++
            ',' :: '\n' :: (indentChars (d + 1) ++ ('"' :: (escList k2.data ++
              '"' :: ':' :: ' ' :: (renderChars (d + 1) v2 ++ fieldsSep (d + 1)
                ('\n' :: (indentChars d ++ '\x7d' :: rest)) qs)))))
        from skipWs_cons_not _ rfl]
      rw [if_pos (show (':' :: ' ' :: (renderChars (d + 1) v ++
        ',' :: '\n' :: (indentChars (d + 1) ++ ('"' :: (escList k2.data ++
          '"' :: ':' :: ' ' :: (renderChars (d + 1) v2 ++ fieldsSep (d + 1)
            ('\n' :: (indentChars d ++ '\x7d' :: rest)) qs)))))).head? =
          some ':' from rfl)]
      rw [show (':' :: ' ' :: (renderChars (d + 1) v ++
        ',' :: '\n' :: (indentChars (d + 1) ++ ('"' :: (escList k2.data ++
          '"' :: ':' :: ' ' :: (renderChars (d + 1) v2 ++ fieldsSep (d + 1)
            ('\n' :: (indentChars d ++ '\x7d' :: rest)) qs)))))).tail =
          ' ' :: (renderChars (d + 1) v ++
            ',' :: '\n' :: (indentChars (d + 1) ++ ('"' :: (escList k2.data ++
              '"' :: ':' :: ' ' :: (renderChars (d + 1) v2 ++ fieldsSep (d + 1)
                ('\n' :: (indentChars d ++ '\x7d' :: rest)) qs)))))
        from rfl]
      have hval : parseVal f (' ' :: (renderChars (d + 1) v ++
          ',' :: '\n' :: (indentChars (d + 1) ++ ('"' :: (escList k2.data ++
            '"' :: ':' :: ' ' :: (renderChars (d + 1) v2 ++ fieldsSep (d + 1)
              ('\n' :: (indentChars d ++ '\x7d' :: rest)) qs)))))) =
          some (v, ',' :: '\n' :: (indentChars (d + 1) ++ ('"' :: (escList k2.data ++
            '"' :: ':' :: ' ' :: (renderChars (d + 1) v2 ++ fieldsSep (d + 1)
              ('\n' :: (indentChars d ++ '\x7d' :: rest)) qs))))) :=
        IH (k, v) (by simp) (d + 1) [' ']
          (',' :: '\n' :: (indentChars (d + 1) ++ ('"' :: (escList k2.data ++
            '"' :: ':' :: ' ' :: (renderChars (d + 1) v2 ++ fieldsSep (d + 1)
              ('\n' :: (indentChars d ++ '\x7d' :: rest)) qs))))) f
          (by show weight v ≤ f; omega) rfl
          (by intro c hc; rw [List.mem_singleton.mp hc]; rfl)
      rw [hval]
      simp only [Option.some_bind]
      rw [show skipWs (',' :: '\n' :: (indentChars (d + 1) ++
          ('"' :: (escList k2.data ++ '"' :: ':' :: ' ' ::
            (renderChars (d + 1) v2 ++ fieldsSep (d + 1)
              ('\n' :: (indentChars d ++ '\x7d' :: rest)) qs))))) =
          ',' :: '\n' :: (indentChars (d + 1) ++
            ('"' :: (escList k2.data ++ '"' :: ':' :: ' ' ::
              (renderChars (d + 1) v2 ++ fieldsSep (d + 1)
                ('\n' :: (indentChars d ++ '\x7d' :: rest)) qs))))
        from skipWs_cons_not _ rfl]
      rw [if_pos (show (',' :: '\n' :: (indentChars (d + 1) ++
          ('"' :: (escList k2.data ++ '"' :: ':' :: ' ' ::
            (renderChars (d + 1) v2 ++ fieldsSep (d + 1)
              ('\n' :: (indentChars d ++ '\x7d' :: rest)) qs))))).head? =
          some ',' from rfl)]
      rw [show (',' :: '\n' :: (indentChars (d + 1) ++
          ('"' :: (escList k2.data ++ '"' :: ':' :: ' ' ::
            (renderChars (d + 1) v2 ++ fieldsSep (d + 1)
              ('\n' :: (indentChars d ++ '\x7d' :: rest)) qs))))).tail =
          '\n' :: (indentChars (d + 1) ++
            ('"' :: (escList k2.data ++ '"' :: ':' :: ' ' ::
              (renderChars (d + 1) v2 ++ fieldsSep (d + 1)
                ('\n' :: (indentChars d ++ '\x7d' :: rest)) qs))))
        from rfl]
      rw [show skipWs ('\n' :: (indentChars (d + 1) ++
          ('"' :: (escList k2.data ++ '"' :: ':' :: ' ' ::
            (renderChars (d + 1) v2 ++ fieldsSep (d + 1)
              ('\n' :: (indentChars d ++ '\x7d' :: rest)) qs))))) =
          '"' :: (escList k2.data ++ '"' :: ':' :: ' ' ::
            (renderChars (d + 1) v2 ++ fieldsSep (d + 1)
              ('\n' :: (indentChars d ++ '\x7d' :: rest)) qs)) from by
        show skipWs (indentChars (d + 1) ++
          ('"' :: (escList k2.data ++ '"' :: ':' :: ' ' ::
            (renderChars (d + 1) v2 ++ fieldsSep (d + 1)
              ('\n' :: (indentChars d ++ '\x7d' :: rest)) qs)))) = _
        rw [skipWs_ws_append _ (isWs_indent (d + 1))]
        exact skipWs_cons_not _ rfl]
      rw [show '"' :: (escList k2.data ++ '"' :: ':' :: ' ' ::
          (renderChars (d + 1) v2 ++ fieldsSep (d + 1)
            ('\n' :: (indentChars d ++ '\x7d' :: rest)) qs)) =
          '"' :: (escList k2.data ++ '"' :: ':' :: ' ' ::
            (renderChars ((d) + 1) v2 ++ fieldsSep ((d) + 1)
              ('\n' :: (indentChars d ++ '\x7d' :: rest)) qs)) from rfl]
      rw [ih k2 v2 d rest f (fun z hz => IH z (List.mem_cons_of_mem _ hz))
        (by omega) hrest]
      rfl

theorem parseVal_render_bound :
    ∀ (N : Nat) (v : Json), sizeOf v ≤ N →
      ∀ (d : Nat) (ws rest : List Char) (fuel : Nat),
        weight v ≤ fuel → okAfterNum rest → (∀ c ∈ ws, isWs c = true) →
        parseVal fuel (ws ++ (renderChars d v ++ rest)) = some (v, rest) := by
  intro N
  induction N with
  | zero =>
    intro v hv
    exfalso
    cases v <;> simp at hv
  | succ N ihN =>
    intro v hv d ws rest fuel hfuel hrest hws
    rw [parseVal_ws_append fuel ws _ hws]
    cases v with
    | null =>
      cases fuel with
      | zero =>
        have hw : weight Json.null = 1 := rfl
        omega
      | succ f => rfl
    | bool b =>
      cases fuel with
      | zero =>
        have hw : weight (Json.bool b) = 1 := rfl
        omega
      | succ f => cases b <;> rfl
    | num n =>
      cases fuel with
      | zero =>
        have hw : weight (Json.num n) = 1 := rfl
        omega
      | succ f =>
        by_cases hn : n < 0
        · have hrc : renderChars d (Json.num n) = '-' :: natChars n.natAbs := by
            simp [renderChars, intChars, hn]
          rw [hrc, show ('-' :: natChars n.natAbs) ++ rest =
            '-' :: (natChars n.natAbs ++ rest) from rfl]
          rw [parseVal_minus, parseNatNum_spec n.natAbs rest hrest]
          have habs : -((n.natAbs : Nat) : Int) = n := by omega
          simp only [Option.map_some']
          rw [habs]
        · have hrc : renderChars d (Json.num n) = natChars n.toNat := by
            simp [renderChars, intChars, hn]
          obtain ⟨c, t, hct⟩ : ∃ c t, natChars n.toNat = c :: t := by
            cases h : natChars n.toNat with
            | nil => exact absurd h (natChars_ne_nil _)
            | cons c t => exact ⟨c, t, rfl⟩
          have hcd : c.isDigit = true := natChars_digits _ c (by rw [hct]; simp)
          rw [hrc, hct, show (c :: t) ++ rest = c :: (t ++ rest) from rfl]
          rw [parseVal_digit f c _ hcd]
          rw [show c :: (t ++ rest) = (c :: t) ++ rest from rfl, ← hct]
          rw [parseNatNum_spec n.toNat rest hrest]
          have htn : ((n.toNat : Nat) : Int) = n := by omega
          simp only [Option.map_some']
          rw [htn]
    | str s =>
      cases fuel with
      | zero =>
        have hw : weight (Json.str s) = 2 + s.length := rfl
        omega
      | succ f =>
        have hlen : s.data.length < f := by
          have hw : weight (Json.str s) = 2 + s.length := rfl
          have hsl : s.length = s.data.length := rfl
          omega
        rw [show renderChars d (Json.str s) ++ rest =
            '"' :: (escList s.data ++ '"' :: rest) from by
          show ('"' :: (escList s.data ++ ['"'])) ++ rest = _
          simp]
        rw [parseVal_quote, parseStrChars_esc s.data rest f hlen]
        rfl
    | arr xs =>
      cases xs with
      | nil =>
        cases fuel with
        | zero =>
          have hw : weight (Json.arr []) = 1 := rfl
          omega
        | succ f => rfl
      | cons x xsr =>
        cases fuel with
        | zero =>
          have hw1 : weight (Json.arr (x :: xsr)) = 1 + weightElems (x :: xsr) := rfl
          omega
        | succ f =>
          have hdec : renderChars d (Json.arr (x :: xsr)) ++ rest =
              '[' :: ('\n' :: (indentChars (d + 1) ++ (renderChars (d + 1) x ++
                itemsSep (d + 1) ('\n' :: (indentChars d ++ ']' :: rest)) xsr))) := by
            show ('[' :: '\n' :: (renderItems (d + 1) (x :: xsr) ++ '\n' ::
              (indentChars d ++ [']']))) ++ rest = _
            have h1 : ('[' :: '\n' :: (renderItems (d + 1) (x :: xsr) ++ '\n' ::
                (indentChars d ++ [']']))) ++ rest =
                '[' :: '\n' :: (renderItems (d + 1) (x :: xsr) ++
                  ('\n' :: (indentChars d ++ ']' :: rest))) := by simp
            rw [h1, items_decomp (d + 1) ('\n' :: (indentChars d ++ ']' :: rest)) xsr x]
          rw [hdec, parseVal_lbrack]
          obtain ⟨c0, t0, hrx, hc0ws, hc0b, hc0br⟩ := renderChars_head (d + 1) x
          have hskip : skipWs ('\n' :: (indentChars (d + 1) ++
              (renderChars (d + 1) x ++
                itemsSep (d + 1) ('\n' :: (indentChars d ++ ']' :: rest)) xsr))) =
              renderChars (d + 1) x ++
                itemsSep (d + 1) ('\n' :: (indentChars d ++ ']' :: rest)) xsr := by
            show skipWs (indentChars (d + 1) ++ (renderChars (d + 1) x ++
              itemsSep (d + 1) ('\n' :: (indentChars d ++ ']' :: rest)) xsr)) = _
            rw [skipWs_ws_append _ (isWs_indent (d + 1)), hrx, List.cons_append]
            exact skipWs_cons_not _ hc0ws
          rw [hskip]
          have hne : ¬((renderChars (d + 1) x ++
              itemsSep (d + 1) ('\n' :: (indentChars d ++ ']' :: rest)) xsr).head? =
              some ']') := by
            rw [hrx, List.cons_append]
            intro hcon
            simp at hcon
            exact hc0b hcon
          rw [if_neg hne]
          have hIH : ∀ y ∈ x :: xsr, ∀ (d2 : Nat) (ws2 rest2 : List Char)
              (fuel2 : Nat), weight y ≤ fuel2 → okAfterNum rest2 →
              (∀ c ∈ ws2, isWs c = true) →
              parseVal fuel2 (ws2 ++ (renderChars d2 y ++ rest2)) = some (y, rest2) := by
            intro y hy d2 ws2 rest2 fuel2 hw2 hr2 hws2
            refine ihN y ?_ d2 ws2 rest2 fuel2 hw2 hr2 hws2
            have h1 := List.sizeOf_lt_of_mem hy
            have h2 : sizeOf (Json.arr (x :: xsr)) = 1 + sizeOf (x :: xsr) := by simp
            omega
          have helems := parseElems_render xsr x d rest [] f hIH ?_ hrest (by simp)
          · simp only [List.nil_append] at helems
            rw [helems]
            rfl
          · have hw1 : weight (Json.arr (x :: xsr)) = 1 + weightElems (x :: xsr) := rfl
            have hw2 : weightElems (x :: xsr) = 1 + weight x + weightElems xsr := rfl
            omega
    | obj ps =>
      cases ps with
      | nil =>
        cases fuel with
        | zero =>
          have hw : weight (Json.obj []) = 1 := rfl
          omega
        | succ f => rfl
      | cons p psr =>
        obtain ⟨pk, pv⟩ := p
        cases fuel with
        | zero =>
          have hw1 : weight (Json.obj ((pk, pv) :: psr)) =
              1 + weightFields ((pk, pv) :: psr) := rfl
          omega
        | succ f =>
          have hdec : renderChars d (Json.obj ((pk, pv) :: psr)) ++ rest =
              '\x7b' :: ('\n' :: (indentChars (d + 1) ++ ('"' :: (escList pk.data ++
                '"' :: ':' :: ' ' :: (renderChars (d + 1) pv ++
                  fieldsSep (d + 1) ('\n' :: (indentChars d ++ '\x7d' :: rest))
                    psr))))) := by
            show ('\x7b' :: '\n' :: (renderFields (d + 1) ((pk, pv) :: psr) ++ '\n' ::
              (indentChars d ++ ['\x7d']))) ++ rest = _
            have h1 : ('\x7b' :: '\n' :: (renderFields (d + 1) ((pk, pv) :: psr) ++
                '\n' :: (indentChars d ++ ['\x7d']))) ++ rest =
                '\x7b' :: '\n' :: (renderFields (d + 1) ((pk, pv) :: psr) ++
                  ('\n' :: (indentChars d ++ '\x7d' :: rest))) := by simp
            rw [h1, fields_decomp (d + 1)
              ('\n' :: (indentChars d ++ '\x7d' :: rest)) psr pk pv]
          rw [hdec, parseVal_lbrace]
          have hskip : skipWs ('\n' :: (indentChars (d + 1) ++ ('"' :: (escList pk.data ++
              '"' :: ':' :: ' ' :: (renderChars (d + 1) pv ++
                fieldsSep (d + 1) ('\n' :: (indentChars d ++ '\x7d' :: rest)) psr))))) =
              '"' :: (escList pk.data ++ '"' :: ':' :: ' ' :: (renderChars (d + 1) pv ++
                fieldsSep (d + 1) ('\n' :: (indentChars d ++ '\x7d' :: rest)) psr)) := by
            show skipWs (indentChars (d + 1) ++ ('"' :: (escList pk.data ++
              '"' :: ':' :: ' ' :: (renderChars (d + 1) pv ++
                fieldsSep (d + 1) ('\n' :: (indentChars d ++ '\x7d' :: rest)) psr)))) = _
            rw [skipWs_ws_append _ (isWs_indent (d + 1))]
            exact skipWs_cons_not _ rfl
          rw [hskip]
          have hne : ¬(('"' :: (escList pk.data ++ '"' :: ':' :: ' ' ::
              (renderChars (d + 1) pv ++ fieldsSep (d + 1)
                ('\n' :: (indentChars d ++ '\x7d' :: rest)) psr))).head? =
              some '\x7d') := by
            intro hcon
            have h3 : (some '"' : Option Char) = some '\x7d' := hcon
            exact absurd (Option.some.inj h3) (by decide)
          rw [if_neg hne]
          have hIH : ∀ q ∈ (pk, pv) :: psr, ∀ (d2 : Nat) (ws2 rest2 : List Char)
              (fuel2 : Nat), weight (Prod.snd q) ≤ fuel2 → okAfterNum rest2 →
              (∀ c ∈ ws2, isWs c = true) →
              parseVal fuel2 (ws2 ++ (renderChars d2 (Prod.snd q) ++ rest2)) =
                some (Prod.snd q, rest2) := by
            intro q hq
            obtain ⟨qk, qv⟩ := q
            intro d2 ws2 rest2 fuel2 hw2 hr2 hws2
            refine ihN qv ?_ d2 ws2 rest2 fuel2 hw2 hr2 hws2
            have h1 := List.sizeOf_lt_of_mem hq
            have h2 : sizeOf (Json.obj ((pk, pv) :: psr)) =
                1 + sizeOf ((pk, pv) :: psr) := by simp
            have h3 : sizeOf (qk, qv) = 1 + sizeOf qk + sizeOf qv := rfl
            omega
          have hmem := parseMembers_render psr pk pv d rest f hIH ?_ hrest
          · rw [hmem]
            rfl
          · have hw1 : weight (Json.obj ((pk, pv) :: psr)) =
                1 + weightFields ((pk, pv) :: psr) := rfl
            have hw2 : weightFields ((pk, pv) :: psr) =
                2 + pk.length + weight pv + weightFields psr := rfl
            omega

theorem length_le_escList (l : List Char) : l.length ≤ (escList l).length := by
  induction l with
  | nil => simp [escList]
  | cons c cs ih =>
    have h1 : escList (c :: cs) = escChar c ++ escList cs := rfl
    have h2 : 1 ≤ (escChar c).length := by
      unfold escChar
      split_ifs <;> simp
    rw [h1]
    simp only [List.length_append, List.length_cons]
    omega

theorem length_indentChars (d : Nat) : (indentChars d).length = 2 * d := by
  simp [indentChars]

theorem weightElems_le_renderItems :
    ∀ (xs : List Json) (x : Json),
      (∀ y ∈ x :: xs, ∀ d2, weight y ≤ (renderChars d2 y).length + 1) →
      ∀ d, 1 ≤ d → weightElems (x :: xs) ≤ (renderItems d (x :: xs)).length := by
  intro xs
  induction xs with
  | nil =>
    intro x IH d hd
    have h1 : renderItems d [x] = indentChars d ++ renderChars d x := rfl
    have h2 : weightElems [x] = 1 + weight x + 0 := rfl
    have h3 := IH x (by simp) d
    rw [h1, h2]
    simp only [List.length_append, length_indentChars]
    omega
  | cons y ys ih =>
    intro x IH d hd
    have h1 : renderItems d (x :: y :: ys) = indentChars d ++
        (renderChars d x ++ ',' :: '\n' :: renderItems d (y :: ys)) := rfl
    have h2 : weightElems (x :: y :: ys) = 1 + weight x + weightElems (y :: ys) := rfl
    have h3 := IH x (by simp) d
    have h4 := ih y (fun z hz => IH z (List.mem_cons_of_mem _ hz)) d hd
    rw [h1, h2]
    simp only [List.length_append, List.length_cons, length_indentChars]
    omega

theorem weightFields_le_renderFields :
    ∀ (ps : List (String × Json)) (k : String) (v : Json),
      (∀ q ∈ (k, v) :: ps, ∀ d2,
        weight (Prod.snd q) ≤ (renderChars d2 (Prod.snd q)).length + 1) →
      ∀ d, 1 ≤ d → weightFields ((k, v) :: ps) ≤ (renderFields d ((k, v) :: ps)).length := by
  intro ps
  induction ps with
  | nil =>
    intro k v IH d hd
    have h1 : renderFields d [(k, v)] = indentChars d ++ '"' ::
        (escList k.data ++ '"' :: ':' :: ' ' :: renderChars d v) := rfl
    have h2 : weightFields [(k, v)] = 2 + k.length + weight v + 0 := rfl
    have h3 := IH (k, v) (by simp) d
    have h4 := length_le_escList k.data
    have h5 : k.length = k.data.length := rfl
    rw [h1, h2]
    simp only [List.length_append, List.length_cons, length_indentChars]
    have h6 : weight v ≤ (renderChars d v).length + 1 := h3
    omega
  | cons q qs ih =>
    intro k v IH d hd
    obtain ⟨k2, v2⟩ := q
    have h1 : renderFields d ((k, v) :: (k2, v2) :: qs) = indentChars d ++ '"' ::
        (escList k.data ++ '"' :: ':' :: ' ' ::
          (renderChars d v ++ ',' :: '\n' :: renderFields d ((k2, v2) :: qs))) := rfl
    have h2 : weightFields ((k, v) :: (k2, v2) :: qs) =
        2 + k.length + weight v + weightFields ((k2, v2) :: qs) := rfl
    have h3 : weight v ≤ (renderChars d v).length + 1 := IH (k, v) (by simp) d
    have h4 := ih k2 v2 (fun z hz => IH z (List.mem_cons_of_mem _ hz)) d hd
    have h5 := length_le_escList k.data
    have h6 : k.length = k.data.length := rfl
    rw [h1, h2]
    simp only [List.length_append, List.length_cons, length_indentChars]
    omega

theorem weight_le_render :
    ∀ (N : Nat) (v : Json), sizeOf v ≤ N →
      ∀ d, weight v ≤ (renderChars d v).length + 1 := by
  intro N
  induction N with
  | zero =>
    intro v hv
    exfalso
    cases v <;> simp at hv
  | succ N ihN =>
    intro v hv d
    cases v with
    | null =>
      have hw : weight Json.null = 1 := rfl
      omega
    | bool b =>
      have hw : weight (Json.bool b) = 1 := rfl
      omega
    | num n =>
      have hw : weight (Json.num n) = 1 := rfl
      omega
    | str s =>
      have hw : weight (Json.str s) = 2 + s.length := rfl
      have hlen : (renderChars d (Json.str s)).length =
          (escList s.data).length + 2 := by
        show ('"' :: (escList s.data ++ ['"'])).length = _
        simp
      have hesc := length_le_escList s.data
      have hsl : s.length = s.data.length := rfl
      omega
    | arr xs =>
      cases xs with
      | nil =>
        have hw : weight (Json.arr []) = 1 := rfl
        omega
      | cons x xsr =>
        have hw : weight (Json.arr (x :: xsr)) = 1 + weightElems (x :: xsr) := rfl
        have hlen : (renderChars d (Json.arr (x :: xsr))).length =
            (renderItems (d + 1) (x :: xsr)).length + 2 * d + 4 := by
          show ('[' :: '\n' :: (renderItems (d + 1) (x :: xsr) ++ '\n' ::
            (indentChars d ++ [']']))).length = _
          simp [length_indentChars]
          omega
        have hIH : ∀ y ∈ x :: xsr, ∀ d2,
            weight y ≤ (renderChars d2 y).length + 1 := by
          intro y hy d2
          refine ihN y ?_ d2
          have h1 := List.sizeOf_lt_of_mem hy
          have h2 : sizeOf (Json.arr (x :: xsr)) = 1 + sizeOf (x :: xsr) := by simp
          omega
        have helems := weightElems_le_renderItems xsr x hIH (d + 1) (by omega)
        omega
    | obj ps =>
      cases ps with
      | nil =>
        have hw : weight (Json.obj []) = 1 := rfl
        omega
      | cons p psr =>
        obtain ⟨pk, pv⟩ := p
        have hw : weight (Json.obj ((pk, pv) :: psr)) =
            1 + weightFields ((pk, pv) :: psr) := rfl
        have hlen : (renderChars d (Json.obj ((pk, pv) :: psr))).length =
            (renderFields (d + 1) ((pk, pv) :: psr)).length + 2 * d + 4 := by
          show ('\x7b' :: '\n' :: (renderFields (d + 1) ((pk, pv) :: psr) ++ '\n' ::
            (indentChars d ++ ['\x7d']))).length = _
          simp [length_indentChars]
          omega
        have hIH : ∀ q ∈ (pk, pv) :: psr, ∀ d2,
            weight (Prod.snd q) ≤ (renderChars d2 (Prod.snd q)).length + 1 := by
          intro q hq
          obtain ⟨qk, qv⟩ := q
          intro d2
          refine ihN qv ?_ d2
          have h1 := List.sizeOf_lt_of_mem hq
          have h2 : sizeOf (Json.obj ((pk, pv) :: psr)) =
              1 + sizeOf ((pk, pv) :: psr) := by simp
          have h3 : sizeOf (qk, qv) = 1 + sizeOf qk + sizeOf qv := rfl
          omega
        have hfields := weightFields_le_renderFields psr pk pv hIH (d + 1) (by omega)
        omega

/-- C6: for every JSON value (object, array, null, number, string — and
booleans as well), `formatResult` yields exactly one content block, of type
`text`, whose text is the `JSON.stringify` serialization, and `JSON.parse`
of that text returns a value equal to the original (round-trip). -/
theorem claim_C6 (v : Json) :
    (formatResult v).content.length = 1 ∧
    (formatResult v).content = [{ type := "text", text := stringify v }] ∧
    jsonParse (stringify v) = some v := by
  refine ⟨rfl, rfl, ?_⟩
  have hbound := weight_le_render (sizeOf v) v (le_refl _) 0
  have hfuel : weight v ≤ (stringify v).data.length + 1 := hbound
  have hparse := parseVal_render_bound (sizeOf v) v (le_refl _) 0 [] []
    ((stringify v).data.length + 1) hfuel trivial (by simp)
  simp only [List.nil_append, List.append_nil] at hparse
  have hp2 : parseVal ((stringify v).data.length + 1) (stringify v).data =
      some (v, []) := hparse
  have hp3 : parseVal ((stringify v).length + 1) (stringify v).data =
      some (v, []) := hp2
  simp [jsonParse, hp2, hp3, skipWs]

end ShieldApi
